import Mathlib

/-!
Shallow embedding of the erio interpreter (src/erio.py): lexer, parser,
evaluator and driver, together with theorems checking the claims of the
specification against this embedding.

Conventions of the embedding:
* Python strings are modelled over their character lists; the character
  classification predicates (isspace, isdigit, isidentifier, isprintable)
  are modelled for the ASCII range, which covers every character the
  language surface uses.
* Python exceptions are modelled by the inductive `Err`.  The interpreter
  defines its own hierarchy (ErioSyntaxError, ErioInvalidTokenError,
  ErioRuntimeError); host exceptions that escape the interpreter uncaught
  (KeyError, IndexError, TypeError, AttributeError, ZeroDivisionError,
  StopIteration) are separate constructors.
* Unbounded recursion (the parser's recursive descent, while loops and
  function calls in the evaluator) is modelled with a fuel parameter;
  exhausted fuel is the distinct error `outOfFuel`, which corresponds to
  nontermination of the source and is never confused with a real error.
-/

/-- Token = namedtuple('Token', ('type', 'value')).  The source's eof
sentinel is Token('eof', None); since no claim observes the eof value we
model it with the empty string. -/
structure Token where
  type : String
  value : String
  deriving Repr, DecidableEq

/-- The error kinds a run of the interpreter can surface.  The first four
constructors model the interpreter's own ErioError hierarchy; the rest
model uncaught host (Python) exceptions. -/
inductive Err where
  | invalidToken (lexeme : String)
  | syntaxErr (t : Token)
  | syntaxErrMsg (msg : String)
  | runtimeErr (msg : String)
  | keyErr (key : String)
  | indexErr
  | typeErr
  | attrErr
  | zeroDivErr
  | valueErr
  | stopIteration
  | outOfFuel
  deriving Repr, DecidableEq

def eofToken : Token := ⟨"eof", ""⟩

def keywords : List String :=
  ["if", "then", "else", "end-if", "while", "do", "end-while",
   "def", "end-def", "return", "or", "and", "not"]

def symbols : List (String × String) :=
  [("(", "open-paren"), (")", "close-paren"), (",", "comma"),
   ("=", "assignment"), ("[", "open-bracket"), ("]", "close-bracket"),
   (">", "gt"), ("<", "lt"), (">=", "gteq"), ("<=", "lteq"),
   ("==", "eq"), ("!=", "noteq"), ("+", "add"), ("-", "sub"),
   ("*", "mul"), ("/", "div"), ("%", "mod")]

def symbolKeys : List String := symbols.map (fun p => p.1)

def symbolLookup (s : String) : Option String :=
  (symbols.find? (fun p => p.1 = s)).map (fun p => p.2)

def isSymbol (l : List Char) : Bool := symbolKeys.contains (String.mk l)

/-- [s[0] for s in symbols] -/
def symbolFirstChars : List Char := symbolKeys.filterMap (fun s => s.data.head?)

/-- c.isspace() for a single character, ASCII/Latin-1 range. -/
def pyIsSpace (c : Char) : Bool :=
  c ∈ [' ', '\t', '\n', '\x0b', '\x0c', '\r',
       '\x1c', '\x1d', '\x1e', '\x1f', '\x85']

/-- c.strip() for a single character: empty if whitespace, else itself. -/
def strip1 (c : Char) : List Char := if pyIsSpace c then [] else [c]

/-- s.isdigit() (ASCII model). -/
def pyIsDigits (l : List Char) : Bool := !l.isEmpty && l.all (fun c => c.isDigit)

/-- s.isidentifier() (ASCII model): letter or underscore followed by
letters, digits or underscores. -/
def pyIsIdentifier (l : List Char) : Bool :=
  match l with
  | [] => false
  | c :: cs => (c.isAlpha || c = '_') && cs.all (fun d => d.isAlphanum || d = '_')

/-- s.isprintable() (ASCII model): every character in 0x20..0x7e. -/
def pyIsPrintable (l : List Char) : Bool :=
  l.all (fun c => 32 ≤ c.toNat && c.toNat ≤ 126)

/-- tests['boolean'] -/
def booleanTest (l : List Char) : Bool := l = "true".data || l = "false".data

/-- tests['string'] -/
def stringTest (l : List Char) : Bool :=
  l.head? = some '"' && l.getLast? = some '"' && pyIsPrintable l

/-- make_token(value): keyword, then symbol, then the tests dict in its
insertion order boolean, identifier, integer, string; otherwise
ErioInvalidTokenError. -/
def make_token (buf : List Char) : Except Err Token :=
  let s := String.mk buf
  if keywords.contains s then .ok ⟨s, s⟩
  else
    match symbolLookup s with
    | some ty => .ok ⟨ty, s⟩
    | none =>
      if booleanTest buf then .ok ⟨"boolean", s⟩
      else if pyIsIdentifier buf then .ok ⟨"identifier", s⟩
      else if pyIsDigits buf then .ok ⟨"integer", s⟩
      else if stringTest buf then .ok ⟨"string", s⟩
      else .error (.invalidToken s)

/-- tokenize(stream): the character-driven loop, carrying the growing
buffer and the in-string flag; at end of stream a non-empty buffer is
emitted as a final token. -/
def tokenizeAux : List Char → List Char → Bool → Except Err (List Token)
  | [], buf, _ =>
      if buf.isEmpty then .ok []
      else
        match make_token buf with
        | .ok t => .ok [t]
        | .error e => .error e
  | c :: cs, buf, instring =>
      if instring && c ≠ '"' then
        tokenizeAux cs (buf ++ [c]) instring
      else if c = '"' && instring then
        match make_token (buf ++ [c]) with
        | .error e => .error e
        | .ok t =>
          match tokenizeAux cs [] false with
          | .error e => .error e
          | .ok rest => .ok (t :: rest)
      else
        -- an opening quote sets instring and falls through to the
        -- boundary checks, exactly as in the source
        let ins := if c = '"' then true else instring
        if isSymbol buf && !isSymbol (buf ++ [c]) then
          match make_token buf with
          | .error e => .error e
          | .ok t =>
            match tokenizeAux cs (strip1 c) ins with
            | .error e => .error e
            | .ok rest => .ok (t :: rest)
        else if !buf.isEmpty &&
            (pyIsSpace c ||
              (symbolFirstChars.contains c && !isSymbol (buf ++ [c])
                && buf ≠ "end".data)) then
          match make_token buf with
          | .error e => .error e
          | .ok t =>
            match tokenizeAux cs (strip1 c) ins with
            | .error e => .error e
            | .ok rest => .ok (t :: rest)
        else
          tokenizeAux cs (buf ++ strip1 c) ins

def tokenize (src : String) : Except Err (List Token) :=
  tokenizeAux src.data [] false

mutual

/-- The expression AST nodes (ConstantExpr, VariableExpr, SequenceExpr,
FunctionCall, AddExpr, MulExpr, OrExpr, AndExpr, NotExpr, CompExpr,
SignExpr of the source). -/
inductive Expr where
  | constant (value : Token)
  | varE (id : Token)
  | sequence (value : List Expr)
  | call (id : Token) (args : List Expr)
  | addE (op : Token) (lhs rhs : Expr)
  | mulE (op : Token) (lhs rhs : Expr)
  | orE (op : Token) (lhs rhs : Expr)
  | andE (op : Token) (lhs rhs : Expr)
  | notE (op : Token) (rhs : Expr)
  | compE (op : Token) (lhs rhs : Expr)
  | signE (op : Token) (rhs : Expr)
  deriving Repr

/-- The statement AST nodes (IfStmnt, WhileStmnt, AssignmentStmnt,
FunctionDef, ReturnStmnt; a FunctionCall may also stand as a statement). -/
inductive Stmnt where
  | ifS (cond : Expr) (thn els : List Stmnt)
  | whileS (cond : Expr) (body : List Stmnt)
  | assign (id : Token) (expr : Expr)
  | funcDef (id : Token) (args : List Token) (body : List Stmnt)
  | ret (value : Expr)
  | call (id : Token) (args : List Expr)
  deriving Repr

end

/-- Parser state: the source's `token` (current) and `lookahead`
variables plus the not-yet-pulled remainder of the token stream. -/
structure PState where
  tok : Token
  la : Token
  rest : List Token
  deriving Repr

/-- next_token(): shift lookahead into current and pull the next token,
defaulting to the eof sentinel. -/
def next_token (ps : PState) : PState :=
  ⟨ps.la, ps.rest.headD eofToken, ps.rest.tail⟩

/-- One task per (mutually recursive) parsing procedure of the source.
The binary precedence levels are instances of
make_left_assoc_binary_op: xExpr parses the next-lower level, then
xTree is its inner build_tree loop.  The prefix levels signExpr and
notExpr are instances of make_prefix_unary_op; collecting the operator
tokens and folding them in reverse is rendered as direct recursion,
which builds the same stacked nodes. -/
inductive PTask where
  | topLevel
  | statement
  | functionCallT
  | functionDef
  | returnStmnt
  | ifStmnt
  | whileStmnt
  | assignmentStmnt
  | block (stop : List String)
  | expr
  | orExpr
  | orTree (lhs : Expr)
  | andExpr
  | andTree (lhs : Expr)
  | notExpr
  | compExpr
  | compTree (lhs : Expr)
  | addExpr
  | addTree (lhs : Expr)
  | mulExpr
  | mulTree (lhs : Expr)
  | signExpr
  | atom
  | constantExpr
  | variableExpr
  | sequenceExpr
  | seqElems
  | enclosure
  | callArgs
  | defParams
  deriving Repr

/-- The possible results of the parsing procedures. -/
inductive PRes where
  | stmnt (s : Stmnt)
  | stmnts (l : List Stmnt)
  | exprR (e : Expr)
  | exprs (l : List Expr)
  | toks (l : List Token)
  | callR (id : Token) (args : List Expr)
  deriving Repr

/-- Wrong result shape from a recursive call; unreachable, but the
packing into one fuel-indexed function needs a branch for it. -/
def shapeErr : Err := .runtimeErr ("parser result shape")

/-- The recursive-descent parser, one fuel-indexed function covering the
source's mutually recursive procedures.  Fuel decreases on every
recursive call; running out of fuel models nontermination. -/
def parseRun : Nat → PTask → PState → Except Err (PRes × PState)
  | 0, _, _ => .error .outOfFuel
  | f+1, t, ps =>
    match t with
    | .topLevel =>
      -- top_level_statement()
      if ps.tok.type = "return" then
        .error (.syntaxErrMsg ("Return statement outside of function body"))
      else parseRun f .statement ps
    | .statement =>
      -- statement(): dispatch on token.type, else ErioSyntaxError(token)
      if ps.tok.type = "if" then parseRun f .ifStmnt ps
      else if ps.tok.type = "while" then parseRun f .whileStmnt ps
      else if ps.tok.type = "def" then parseRun f .functionDef ps
      else if ps.tok.type = "return" then parseRun f .returnStmnt ps
      else if ps.tok.type = "identifier" && ps.la.type = "assignment" then
        parseRun f .assignmentStmnt ps
      else if ps.tok.type = "identifier" && ps.la.type = "open-paren" then
        match parseRun f .functionCallT ps with
        | .ok (.callR id args, ps') => .ok (.stmnt (.call id args), ps')
        | .ok _ => .error shapeErr
        | .error e => .error e
      else .error (.syntaxErr ps.tok)
    | .functionCallT =>
      -- function_call()
      let name := ps.tok
      let ps := next_token ps      -- identifier
      let ps := next_token ps      -- open-paren
      match parseRun f .callArgs ps with
      | .ok (.exprs args, ps') => .ok (.callR name args, next_token ps')  -- close-paren
      | .ok _ => .error shapeErr
      | .error e => .error e
    | .callArgs =>
      -- the argument loop of function_call: until close-paren, parse an
      -- expression and skip a comma when one is present
      if ps.tok.type = "close-paren" then .ok (.exprs [], ps)
      else
        match parseRun f .expr ps with
        | .ok (.exprR e, ps') =>
          let ps' := if ps'.tok.type = "comma" then next_token ps' else ps'
          match parseRun f .callArgs ps' with
          | .ok (.exprs es, ps'') => .ok (.exprs (e :: es), ps'')
          | .ok _ => .error shapeErr
          | .error e2 => .error e2
        | .ok _ => .error shapeErr
        | .error e => .error e
    | .functionDef =>
      -- function_def()
      let ps := next_token ps      -- def
      let name := ps.tok
      let ps := next_token ps      -- identifier
      let ps := next_token ps      -- open-paren
      match parseRun f .defParams ps with
      | .ok (.toks args, ps') =>
        let ps' := next_token ps'  -- close-paren
        match parseRun f (.block ["end-def"]) ps' with
        | .ok (.stmnts body, ps'') =>
          .ok (.stmnt (.funcDef name args body), next_token ps'')  -- end-def
        | .ok _ => .error shapeErr
        | .error e => .error e
      | .ok _ => .error shapeErr
      | .error e => .error e
    | .defParams =>
      -- the parameter loop of function_def
      if ps.tok.type = "close-paren" then .ok (.toks [], ps)
      else
        let a := ps.tok
        let ps := next_token ps    -- identifier
        let ps := if ps.tok.type = "comma" then next_token ps else ps
        match parseRun f .defParams ps with
        | .ok (.toks as, ps') => .ok (.toks (a :: as), ps')
        | .ok _ => .error shapeErr
        | .error e => .error e
    | .returnStmnt =>
      -- return_stmnt()
      let ps := next_token ps      -- return
      match parseRun f .expr ps with
      | .ok (.exprR e, ps') => .ok (.stmnt (.ret e), ps')
      | .ok _ => .error shapeErr
      | .error e => .error e
    | .ifStmnt =>
      -- if_stmnt(); note that the token in the `then` position is
      -- consumed by next_token without a check of its kind
      let ps := next_token ps      -- if
      match parseRun f .expr ps with
      | .ok (.exprR cond, ps') =>
        let ps' := next_token ps'  -- then
        match parseRun f (.block ["else", "end-if"]) ps' with
        | .ok (.stmnts thn, ps'') =>
          if ps''.tok.type = "else" then
            match parseRun f (.block ["end-if"]) (next_token ps'') with
            | .ok (.stmnts els, ps3) =>
              .ok (.stmnt (.ifS cond thn els), next_token ps3)  -- end-if
            | .ok _ => .error shapeErr
            | .error e => .error e
          else .ok (.stmnt (.ifS cond thn []), next_token ps'')  -- end-if
        | .ok _ => .error shapeErr
        | .error e => .error e
      | .ok _ => .error shapeErr
      | .error e => .error e
    | .whileStmnt =>
      -- while_stmnt(); the token in the `do` position is consumed unchecked
      let ps := next_token ps      -- while
      match parseRun f .expr ps with
      | .ok (.exprR cond, ps') =>
        let ps' := next_token ps'  -- do
        match parseRun f (.block ["end-while"]) ps' with
        | .ok (.stmnts body, ps'') =>
          .ok (.stmnt (.whileS cond body), next_token ps'')  -- end-while
        | .ok _ => .error shapeErr
        | .error e => .error e
      | .ok _ => .error shapeErr
      | .error e => .error e
    | .assignmentStmnt =>
      -- assignment_stmnt()
      let var := ps.tok
      let ps := next_token ps      -- identifier
      let ps := next_token ps      -- assignment operator
      match parseRun f .expr ps with
      | .ok (.exprR e, ps') => .ok (.stmnt (.assign var e), ps')
      | .ok _ => .error shapeErr
      | .error e => .error e
    | .block stop =>
      -- the statement-list loops of if/while/def bodies
      if stop.contains ps.tok.type then .ok (.stmnts [], ps)
      else
        match parseRun f .statement ps with
        | .ok (.stmnt s, ps') =>
          match parseRun f (.block stop) ps' with
          | .ok (.stmnts l, ps'') => .ok (.stmnts (s :: l), ps'')
          | .ok _ => .error shapeErr
          | .error e => .error e
        | .ok _ => .error shapeErr
        | .error e => .error e
    | .expr => parseRun f .orExpr ps
    | .orExpr =>
      match parseRun f .andExpr ps with
      | .ok (.exprR lhs, ps') => parseRun f (.orTree lhs) ps'
      | .ok _ => .error shapeErr
      | .error e => .error e
    | .orTree lhs =>
      -- build_tree for the `or` level; ('or') in the source is the
      -- string 'or', whose substring check coincides with equality for
      -- every producible token kind
      if ps.tok.type = "or" then
        let op := ps.tok
        match parseRun f .andExpr (next_token ps) with
        | .ok (.exprR rhs, ps') => parseRun f (.orTree (.orE op lhs rhs)) ps'
        | .ok _ => .error shapeErr
        | .error e => .error e
      else .ok (.exprR lhs, ps)
    | .andExpr =>
      match parseRun f .notExpr ps with
      | .ok (.exprR lhs, ps') => parseRun f (.andTree lhs) ps'
      | .ok _ => .error shapeErr
      | .error e => .error e
    | .andTree lhs =>
      -- ('and') is likewise the string 'and'; only the kind 'and' matches
      if ps.tok.type = "and" then
        let op := ps.tok
        match parseRun f .notExpr (next_token ps) with
        | .ok (.exprR rhs, ps') => parseRun f (.andTree (.andE op lhs rhs)) ps'
        | .ok _ => .error shapeErr
        | .error e => .error e
      else .ok (.exprR lhs, ps)
    | .notExpr =>
      -- make_prefix_unary_op(NotExpr, comp_expr, ('not')); ('not') is
      -- the string 'not', and only the kind 'not' is a substring of it
      if ps.tok.type = "not" then
        let op := ps.tok
        match parseRun f .notExpr (next_token ps) with
        | .ok (.exprR rhs, ps') => .ok (.exprR (.notE op rhs), ps')
        | .ok _ => .error shapeErr
        | .error e => .error e
      else parseRun f .compExpr ps
    | .compExpr =>
      match parseRun f .addExpr ps with
      | .ok (.exprR lhs, ps') => parseRun f (.compTree lhs) ps'
      | .ok _ => .error shapeErr
      | .error e => .error e
    | .compTree lhs =>
      if ps.tok.type ∈ ["eq", "gt", "lt", "gteq", "lteq", "noteq"] then
        let op := ps.tok
        match parseRun f .addExpr (next_token ps) with
        | .ok (.exprR rhs, ps') => parseRun f (.compTree (.compE op lhs rhs)) ps'
        | .ok _ => .error shapeErr
        | .error e => .error e
      else .ok (.exprR lhs, ps)
    | .addExpr =>
      match parseRun f .mulExpr ps with
      | .ok (.exprR lhs, ps') => parseRun f (.addTree lhs) ps'
      | .ok _ => .error shapeErr
      | .error e => .error e
    | .addTree lhs =>
      if ps.tok.type ∈ ["add", "sub"] then
        let op := ps.tok
        match parseRun f .mulExpr (next_token ps) with
        | .ok (.exprR rhs, ps') => parseRun f (.addTree (.addE op lhs rhs)) ps'
        | .ok _ => .error shapeErr
        | .error e => .error e
      else .ok (.exprR lhs, ps)
    | .mulExpr =>
      match parseRun f .signExpr ps with
      | .ok (.exprR lhs, ps') => parseRun f (.mulTree lhs) ps'
      | .ok _ => .error shapeErr
      | .error e => .error e
    | .mulTree lhs =>
      if ps.tok.type ∈ ["mul", "div", "mod"] then
        let op := ps.tok
        match parseRun f .signExpr (next_token ps) with
        | .ok (.exprR rhs, ps') => parseRun f (.mulTree (.mulE op lhs rhs)) ps'
        | .ok _ => .error shapeErr
        | .error e => .error e
      else .ok (.exprR lhs, ps)
    | .signExpr =>
      -- make_prefix_unary_op(SignExpr, atom, ('add', 'sub'))
      if ps.tok.type ∈ ["add", "sub"] then
        let op := ps.tok
        match parseRun f .signExpr (next_token ps) with
        | .ok (.exprR rhs, ps') => .ok (.exprR (.signE op rhs), ps')
        | .ok _ => .error shapeErr
        | .error e => .error e
      else parseRun f .atom ps
    | .atom =>
      -- atom(): dispatch on token.type, else ErioSyntaxError(token)
      if ps.tok.type ∈ ["string", "integer", "boolean"] then
        parseRun f .constantExpr ps
      else if ps.tok.type = "identifier" && ps.la.type = "open-paren" then
        match parseRun f .functionCallT ps with
        | .ok (.callR id args, ps') => .ok (.exprR (.call id args), ps')
        | .ok _ => .error shapeErr
        | .error e => .error e
      else if ps.tok.type = "identifier" then parseRun f .variableExpr ps
      else if ps.tok.type = "open-bracket" then parseRun f .sequenceExpr ps
      else if ps.tok.type = "open-paren" then parseRun f .enclosure ps
      else .error (.syntaxErr ps.tok)
    | .constantExpr =>
      .ok (.exprR (.constant ps.tok), next_token ps)
    | .variableExpr =>
      .ok (.exprR (.varE ps.tok), next_token ps)
    | .sequenceExpr =>
      -- sequence_expr()
      let ps := next_token ps      -- open-bracket
      match parseRun f .seqElems ps with
      | .ok (.exprs es, ps') => .ok (.exprR (.sequence es), next_token ps')  -- close-bracket
      | .ok _ => .error shapeErr
      | .error e => .error e
    | .seqElems =>
      if ps.tok.type = "close-bracket" then .ok (.exprs [], ps)
      else
        match parseRun f .expr ps with
        | .ok (.exprR e, ps') =>
          let ps' := if ps'.tok.type = "comma" then next_token ps' else ps'
          match parseRun f .seqElems ps' with
          | .ok (.exprs es, ps'') => .ok (.exprs (e :: es), ps'')
          | .ok _ => .error shapeErr
          | .error e2 => .error e2
        | .ok _ => .error shapeErr
        | .error e => .error e
    | .enclosure =>
      -- enclosure_expr(); the token in the close-paren position is
      -- consumed unchecked
      let ps := next_token ps      -- open-paren
      match parseRun f .expr ps with
      | .ok (.exprR e, ps') => .ok (.exprR e, next_token ps')  -- close-paren
      | .ok _ => .error shapeErr
      | .error e => .error e

/-- parse(stream) initialisation: pull two tokens unconditionally; a
stream of fewer than two tokens raises StopIteration there. -/
def parseInit (ts : List Token) : Except Err PState :=
  match ts with
  | t0 :: t1 :: rest => .ok ⟨t0, t1, rest⟩
  | _ => .error .stopIteration

/-- The statement-yielding loop of parse, run to completion:
list(parse(tokenize(...))) as the repository's tests use it. -/
def parseLoop : Nat → PState → Except Err (List Stmnt)
  | 0, _ => .error .outOfFuel
  | f+1, ps =>
    if ps.tok.type = "eof" then .ok []
    else
      match parseRun f .topLevel ps with
      | .ok (.stmnt s, ps') =>
        match parseLoop f ps' with
        | .ok l => .ok (s :: l)
        | .error e => .error e
      | .ok _ => .error shapeErr
      | .error e => .error e

def parseAll (fuel : Nat) (ts : List Token) : Except Err (List Stmnt) :=
  match parseInit ts with
  | .ok ps => parseLoop fuel ps
  | .error e => .error e

/-- The built-in primitive operations bound by build_global_environment. -/
inductive Prim where
  | printP | addP | subP | ltP | eqP | getiP | setiP | lenP | insertP
  deriving Repr, DecidableEq

/-- The body of a Function value: a user function carries its statement
list, a primitive carries its tag. -/
inductive FuncBody where
  | user (body : List Stmnt)
  | prim (p : Prim)
  deriving Repr

/-- Runtime values.  Integer, String, Boolean are one-field namedtuples;
a Sequence holds a mutable list, modelled as a reference into the
sequence store; Function captures a reference to its defining
environment frame.  `pyNone` is the host's None, which flows as the
result of a function that executes no return statement; `sink` is the
output writer stored under the reserved name. -/
inductive Value where
  | int (n : Int)
  | str (s : String)
  | bool (b : Bool)
  | seqRef (i : Nat)
  | func (envRef : Nat) (args : List String) (body : FuncBody)
  | pyNone
  | sink
  deriving Repr

/-- One Namespace: a dict plus an optional parent reference.  The entry
list is newest-first; lookup takes the first match, so inserting an
existing key overwrites it, as in a dict. -/
structure Frame where
  entries : List (String × Value)
  parent : Option Nat
  deriving Repr

/-- The mutable world: all namespace frames ever created, the sequence
store, and the text written to the output sink so far. -/
structure EvalSt where
  frames : List Frame
  seqs : List (List Value)
  output : String
  deriving Repr

def Frame.get (fr : Frame) (k : String) : Option Value :=
  (fr.entries.find? (fun p => p.1 = k)).map (fun p => p.2)

def Frame.set (fr : Frame) (k : String) (v : Value) : Frame :=
  ⟨(k, v) :: fr.entries, fr.parent⟩

/-- Namespace.__getitem__: the value in this frame if present, else the
nearest binding in the parent chain, else KeyError.  Fuel bounds the
chain (parents of frames built by the interpreter always have smaller
indices, so frames.length + 1 fuel never runs out). -/
def nsLookup : Nat → List Frame → Nat → String → Except Err Value
  | 0, _, _, _ => .error .outOfFuel
  | f+1, frames, i, k =>
    match frames[i]? with
    | none => .error (.runtimeErr ("missing frame"))
    | some fr =>
      match fr.get k with
      | some v => .ok v
      | none =>
        match fr.parent with
        | some p => nsLookup f frames p k
        | none => .error (.keyErr k)

def envGet (st : EvalSt) (envi : Nat) (k : String) : Except Err Value :=
  nsLookup (st.frames.length + 1) st.frames envi k

/-- Namespace.__setitem__: writes always land in the addressed frame. -/
def nsSet (frames : List Frame) (i : Nat) (k : String) (v : Value) : List Frame :=
  match frames[i]? with
  | some fr => frames.set i (fr.set k v)
  | none => frames

/-- build_global_environment(out): the global frame holds the output
sink under the reserved name '.out' and the nine primitives, each a
Function capturing the global frame (reference 0). -/
def build_global_environment : EvalSt :=
  ⟨[⟨[(".out", .sink),
      ("print", .func 0 ["s"] (.prim .printP)),
      ("add", .func 0 ["lhs", "rhs"] (.prim .addP)),
      ("sub", .func 0 ["lhs", "rhs"] (.prim .subP)),
      ("lt", .func 0 ["lhs", "rhs"] (.prim .ltP)),
      ("eq", .func 0 ["lhs", "rhs"] (.prim .eqP)),
      ("geti", .func 0 ["seq", "i"] (.prim .getiP)),
      ("seti", .func 0 ["seq", "i", "value"] (.prim .setiP)),
      ("len", .func 0 ["seq"] (.prim .lenP)),
      ("insert", .func 0 ["seq", "i", "value"] (.prim .insertP))],
     none⟩],
   [], ""⟩

/-- The source's true(obj): `obj.val == True`.  Under Python semantics
bool is a subclass of int, so Integer(1).val == True holds; strings and
lists never equal True; values without a val field (Function, the sink,
None) raise AttributeError. -/
def truthy : Value → Except Err Bool
  | .int n => .ok (n = 1)
  | .bool b => .ok b
  | .str _ => .ok false
  | .seqRef _ => .ok false
  | .func _ _ _ => .error .attrErr
  | .pyNone => .error .attrErr
  | .sink => .error .attrErr

/-- Whether `.val` field access succeeds: Integer, String, Boolean and
Sequence are the one-field namedtuples; Function, None and the sink
raise AttributeError. -/
def hasVal : Value → Bool
  | .int _ | .str _ | .bool _ | .seqRef _ => true
  | .func _ _ _ | .pyNone | .sink => false

/-- Python == on the raw underlying values (the .val fields), which is
also == on the namedtuple wrappers themselves, since equality of
one-field tuples is equality of the single fields.  int and bool
compare numerically; different non-numeric types compare unequal;
lists compare elementwise (same reference short-circuits, modelling the
interpreter's identity shortcut).  Distinct Function objects compare
unequal through their closure fields; the model returns false for
functions (the one unmodelled corner, the same function object stored
in two different sequences, is exercised by no claim). -/
def rawEqRun : Nat → EvalSt → ((Value × Value) ⊕ (List Value × List Value)) →
    Except Err Bool
  | 0, _, _ => .error .outOfFuel
  | f+1, st, .inl (a, b) =>
    match a, b with
    | .int x, .int y => .ok (x = y)
    | .int x, .bool y => .ok (x = (if y then 1 else 0))
    | .bool x, .int y => .ok ((if x then 1 else 0) = y)
    | .bool x, .bool y => .ok (x = y)
    | .str x, .str y => .ok (x = y)
    | .pyNone, .pyNone => .ok true
    | .seqRef i, .seqRef j =>
      if i = j then .ok true
      else
        match st.seqs[i]?, st.seqs[j]? with
        | some l1, some l2 => rawEqRun f st (.inr (l1, l2))
        | _, _ => .error (.runtimeErr ("missing sequence"))
    | _, _ => .ok false
  | f+1, st, .inr (l1, l2) =>
    match l1, l2 with
    | [], [] => .ok true
    | [], _ :: _ => .ok false
    | _ :: _, [] => .ok false
    | x :: xs, y :: ys =>
      match rawEqRun f st (.inl (x, y)) with
      | .ok true => rawEqRun f st (.inr (xs, ys))
      | .ok false => .ok false
      | .error e => .error e

def rawEq (fuel : Nat) (st : EvalSt) (a b : Value) : Except Err Bool :=
  rawEqRun fuel st (.inl (a, b))

/-- Python ordering (<) on the raw underlying values, as a three-way
comparison.  int and bool compare numerically, strings
lexicographically; mixing them, or involving None, a Function or the
sink, raises TypeError (for Function tuples the TypeError arises from
comparing the namespace dicts).  Lists compare lexicographically
elementwise. -/
def rawOrderRun : Nat → EvalSt →
    ((Value × Value) ⊕ (List Value × List Value)) → Except Err Ordering
  | 0, _, _ => .error .outOfFuel
  | f+1, st, .inl (a, b) =>
    match a, b with
    | .int x, .int y => .ok (compare x y)
    | .int x, .bool y => .ok (compare x (if y then 1 else 0))
    | .bool x, .int y => .ok (compare (if x then 1 else 0) y)
    | .bool x, .bool y => .ok (compare (if x then 1 else 0) (if y then 1 else 0))
    | .str x, .str y => .ok (compare x y)
    | .seqRef i, .seqRef j =>
      if i = j then .ok .eq
      else
        match st.seqs[i]?, st.seqs[j]? with
        | some l1, some l2 => rawOrderRun f st (.inr (l1, l2))
        | _, _ => .error (.runtimeErr ("missing sequence"))
    | _, _ => .error .typeErr
  | f+1, st, .inr (l1, l2) =>
    match l1, l2 with
    | [], [] => .ok .eq
    | [], _ :: _ => .ok .lt
    | _ :: _, [] => .ok .gt
    | x :: xs, y :: ys =>
      match rawEqRun f st (.inl (x, y)) with
      | .ok true => rawOrderRun f st (.inr (xs, ys))
      | .ok false => rawOrderRun f st (.inl (x, y))
      | .error e => .error e

def rawOrder (fuel : Nat) (st : EvalSt) (a b : Value) : Except Err Ordering :=
  rawOrderRun fuel st (.inl (a, b))

/-- The ops table of eval_comp, applied to the raw values.  A kind
outside the table would raise KeyError in the source. -/
def compApply (fuel : Nat) (st : EvalSt) (ty : String) (a b : Value) :
    Except Err Value :=
  if ty = "eq" then
    match rawEq fuel st a b with
    | .ok r => .ok (.bool r)
    | .error e => .error e
  else if ty = "noteq" then
    match rawEq fuel st a b with
    | .ok r => .ok (.bool (!r))
    | .error e => .error e
  else if ty = "lt" then
    match rawOrder fuel st a b with
    | .ok o => .ok (.bool (o = .lt))
    | .error e => .error e
  else if ty = "gt" then
    match rawOrder fuel st a b with
    | .ok o => .ok (.bool (o = .gt))
    | .error e => .error e
  else if ty = "lteq" then
    match rawOrder fuel st a b with
    | .ok o => .ok (.bool (o ≠ .gt))
    | .error e => .error e
  else if ty = "gteq" then
    match rawOrder fuel st a b with
    | .ok o => .ok (.bool (o ≠ .lt))
    | .error e => .error e
  else .error (.keyErr ty)

/-- The numeric content of a raw value, when it is an int or a bool. -/
def asInt : Value → Option Int
  | .int n => some n
  | .bool b => some (if b then 1 else 0)
  | _ => none

/-- The ops table of eval_arith on the raw values, with Python floor
division and the matching modulus, and ZeroDivisionError on a zero
divisor.  Combinations whose Python result is not a number (string or
list concatenation and repetition, which the source would wrap in a
mis-tagged Integer) cannot be represented by `Value.int` and are
modelled as TypeError; no claim exercises them, and genuinely mixed
operand types do raise TypeError in Python. -/
def arithApply (ty : String) (a b : Value) : Except Err Value :=
  if ty ∈ ["add", "sub", "mul", "div", "mod"] then
    match asInt a, asInt b with
    | some x, some y =>
      if ty = "add" then .ok (.int (x + y))
      else if ty = "sub" then .ok (.int (x - y))
      else if ty = "mul" then .ok (.int (x * y))
      else if ty = "div" then
        if y = 0 then .error .zeroDivErr else .ok (.int (Int.fdiv x y))
      else
        if y = 0 then .error .zeroDivErr else .ok (.int (Int.fmod x y))
    | _, _ => .error .typeErr
  else .error (.keyErr ty)

/-- The ops table of eval_sign: unary plus and minus of an int (or a
bool, which Python promotes); anything else raises TypeError. -/
def signApply (ty : String) (a : Value) : Except Err Value :=
  if ty = "add" ∨ ty = "sub" then
    match asInt a with
    | some x => .ok (.int (if ty = "add" then x else -x))
    | none => .error .typeErr
  else .error (.keyErr ty)

/-- str()/repr() of runtime values as _print uses them.  Elements inside
a printed list appear in namedtuple repr form; the repr of a Function
would recurse into its cyclic environment, which no claim observes, so
it is surfaced as an error. -/
def reprRun : Nat → EvalSt → (Value ⊕ List Value) → Except Err String
  | 0, _, _ => .error .outOfFuel
  | f+1, st, .inl v =>
    match v with
    | .int n => .ok ("Integer(val=" ++ toString n ++ ")")
    | .str s => .ok ("String(val='" ++ s ++ "')")
    | .bool b => .ok ("Boolean(val=" ++ (if b then "True" else "False") ++ ")")
    | .pyNone => .ok ("None")
    | .seqRef i =>
      match st.seqs[i]? with
      | some l =>
        match reprRun f st (.inr l) with
        | .ok s => .ok ("Sequence(val=" ++ s ++ ")")
        | .error e => .error e
      | none => .error (.runtimeErr ("missing sequence"))
    | .func _ _ _ => .error (.runtimeErr ("unmodelled repr"))
    | .sink => .error (.runtimeErr ("unmodelled repr"))
  | f+1, st, .inr l =>
    match l with
    | [] => .ok ("[]")
    | x :: xs =>
      match reprRun f st (.inl x), reprRun f st (.inr xs) with
      | .ok sx, .ok srest =>
        .ok ("[" ++ sx ++ (if xs.isEmpty then "]" else ", " ++ (srest.drop 1)))
      | .error e, _ => .error e
      | _, .error e => .error e

/-- The textual form _print writes for a non-Boolean value: str(v.val). -/
def printText (fuel : Nat) (st : EvalSt) : Value → Except Err String
  | .int n => .ok (toString n)
  | .str s => .ok s
  | .seqRef i =>
    match st.seqs[i]? with
    | some l => reprRun fuel st (.inr l)
    | none => .error (.runtimeErr ("missing sequence"))
  | .bool b => .ok (if b then "true" else "false")
  | .func _ _ _ => .error .attrErr
  | .pyNone => .error .attrErr
  | .sink => .error .attrErr

/-- Python list indexing: 0-based from the front, negative indices count
from the back, anything else raises IndexError. -/
def listIndex (l : List Value) (n : Int) : Except Err Value :=
  if 0 ≤ n ∧ n < l.length then
    match l[n.toNat]? with
    | some v => .ok v
    | none => .error .indexErr
  else if -(l.length : Int) ≤ n ∧ n < 0 then
    match l[(n + l.length).toNat]? with
    | some v => .ok v
    | none => .error .indexErr
  else .error .indexErr

/-- Python list item assignment at an index, same index rules. -/
def listSetIndex (l : List Value) (n : Int) (v : Value) :
    Except Err (List Value) :=
  if 0 ≤ n ∧ n < l.length then .ok (l.set n.toNat v)
  else if -(l.length : Int) ≤ n ∧ n < 0 then .ok (l.set (n + l.length).toNat v)
  else .error .indexErr

/-- Python list.insert: the insertion point is clamped into range. -/
def listInsertAt (l : List Value) (n : Int) (v : Value) : List Value :=
  let idx : Nat := if n < 0 then (max 0 (n + l.length)).toNat
                   else min n.toNat l.length
  l.take idx ++ v :: l.drop idx

/-- The primitive bodies (_print, _add, _sub, _lt, _eq, _geti, _seti,
_len, _insert).  Each receives the fresh call frame (runenv) and reads
its parameters from it by name; a missing parameter surfaces as the
KeyError the source would raise. -/
def applyPrim (fuel : Nat) (p : Prim) (envi : Nat) (st : EvalSt) :
    (Except Err (Option Value)) × EvalSt :=
  match p with
  | .printP =>
    match envGet st envi "s" with
    | .error e => (.error e, st)
    | .ok v =>
      let text := match v with
        | .bool b => Except.ok (if b then "true" else "false")
        | other => printText fuel st other
      match text with
      | .error e => (.error e, st)
      | .ok s =>
        match envGet st envi ".out" with
        | .ok .sink => (.ok none, {st with output := st.output ++ s})
        | .ok _ => (.error .attrErr, st)
        | .error e => (.error e, st)
  | .addP =>
    match envGet st envi "lhs", envGet st envi "rhs" with
    | .ok l, .ok r =>
      if hasVal l && hasVal r then
        match arithApply "add" l r with
        | .ok v => (.ok (some v), st)
        | .error e => (.error e, st)
      else (.error .attrErr, st)
    | .error e, _ => (.error e, st)
    | _, .error e => (.error e, st)
  | .subP =>
    match envGet st envi "lhs", envGet st envi "rhs" with
    | .ok l, .ok r =>
      if hasVal l && hasVal r then
        match arithApply "sub" l r with
        | .ok v => (.ok (some v), st)
        | .error e => (.error e, st)
      else (.error .attrErr, st)
    | .error e, _ => (.error e, st)
    | _, .error e => (.error e, st)
  | .ltP =>
    match envGet st envi "lhs", envGet st envi "rhs" with
    | .ok l, .ok r =>
      if hasVal l && hasVal r then
        match rawOrder fuel st l r with
        | .ok o => (.ok (some (.bool (o = .lt))), st)
        | .error e => (.error e, st)
      else (.error .attrErr, st)
    | .error e, _ => (.error e, st)
    | _, .error e => (.error e, st)
  | .eqP =>
    match envGet st envi "lhs", envGet st envi "rhs" with
    | .ok l, .ok r =>
      if hasVal l && hasVal r then
        match rawEq fuel st l r with
        | .ok b => (.ok (some (.bool b)), st)
        | .error e => (.error e, st)
      else (.error .attrErr, st)
    | .error e, _ => (.error e, st)
    | _, .error e => (.error e, st)
  | .getiP =>
    match envGet st envi "seq", envGet st envi "i" with
    | .ok (.seqRef r), .ok iv =>
      match st.seqs[r]? with
      | none => (.error (.runtimeErr ("missing sequence")), st)
      | some l =>
        match asInt iv with
        | some n =>
          match listIndex l n with
          | .ok v => (.ok (some v), st)
          | .error e => (.error e, st)
        | none => (.error .typeErr, st)
    | .ok v, .ok _ =>
      if hasVal v then (.error (.runtimeErr ("unmodelled subscript")), st)
      else (.error .attrErr, st)
    | .error e, _ => (.error e, st)
    | _, .error e => (.error e, st)
  | .setiP =>
    match envGet st envi "seq", envGet st envi "i", envGet st envi "value" with
    | .ok (.seqRef r), .ok iv, .ok v =>
      match st.seqs[r]? with
      | none => (.error (.runtimeErr ("missing sequence")), st)
      | some l =>
        match asInt iv with
        | some n =>
          match listSetIndex l n v with
          | .ok l2 => (.ok none, {st with seqs := st.seqs.set r l2})
          | .error e => (.error e, st)
        | none => (.error .typeErr, st)
    | .ok v, .ok _, .ok _ =>
      if hasVal v then (.error .typeErr, st) else (.error .attrErr, st)
    | .error e, _, _ => (.error e, st)
    | _, .error e, _ => (.error e, st)
    | _, _, .error e => (.error e, st)
  | .lenP =>
    match envGet st envi "seq" with
    | .ok (.seqRef r) =>
      match st.seqs[r]? with
      | some l => (.ok (some (.int l.length)), st)
      | none => (.error (.runtimeErr ("missing sequence")), st)
    | .ok (.str s) => (.ok (some (.int s.length)), st)
    | .ok v => if hasVal v then (.error .typeErr, st) else (.error .attrErr, st)
    | .error e => (.error e, st)
  | .insertP =>
    match envGet st envi "seq", envGet st envi "i", envGet st envi "value" with
    | .ok (.seqRef r), .ok iv, .ok v =>
      match st.seqs[r]? with
      | none => (.error (.runtimeErr ("missing sequence")), st)
      | some l =>
        match asInt iv with
        | some n => (.ok none, {st with seqs := st.seqs.set r (listInsertAt l n v)})
        | none => (.error .typeErr, st)
    | .ok v, .ok _, .ok _ =>
      if hasVal v then (.error .typeErr, st) else (.error .attrErr, st)
    | .error e, _, _ => (.error e, st)
    | _, .error e, _ => (.error e, st)
    | _, _, .error e => (.error e, st)

/-- One task per evaluation procedure of the source: exec_block,
exec_statement, the loop of exec_while, eval_expr, the left-to-right
evaluation of argument lists, and the invocation step of
eval_func_call. -/
inductive ETask where
  | stmnt (s : Stmnt)
  | blockT (b : List Stmnt)
  | whileT (cond : Expr) (body : List Stmnt)
  | exprT (e : Expr)
  | argsT (es : List Expr)
  | callT (fval : Value) (vals : List Value)
  deriving Repr

/-- The possible results: exec_block/exec_statement yield an optional
return value, eval_expr a value, argument evaluation a list of values. -/
inductive ERes where
  | retR (r : Option Value)
  | valR (v : Value)
  | valsR (vs : List Value)
  deriving Repr

def evalShapeErr : Err := .runtimeErr ("evaluator result shape")

/-- The fresh call frame of eval_func_call: Namespace(parent=func.env)
updated with zip(func.args, evald_args); zip truncates at the shorter
list and a repeated parameter name keeps its last value. -/
def callFrame (fenv : Nat) (fargs : List String) (vals : List Value) : Frame :=
  ⟨((fargs.zip vals).foldl (fun fr kv => Frame.set fr kv.1 kv.2)
      (⟨[], some fenv⟩ : Frame)).entries, some fenv⟩

/-- Appending the call frame to the world; its reference is the previous
number of frames. -/
def pushCall (st : EvalSt) (fenv : Nat) (fargs : List String)
    (vals : List Value) : EvalSt :=
  {st with frames := st.frames ++ [callFrame fenv fargs vals]}

/-- int(s) for the decimal numerals the lexer can produce; any other
text raises ValueError. -/
def intParse (l : List Char) : Option Nat :=
  if !l.isEmpty && l.all (fun c => c.isDigit) then
    some (l.foldl (fun acc c => acc * 10 + (c.toNat - 48)) 0)
  else none

/-- eval_const(token). -/
def eval_const (tok : Token) : Except Err Value :=
  if tok.type = "string" then
    -- strip the quotes: token.value[1:-1]
    .ok (.str (String.mk tok.value.data.tail.dropLast))
  else if tok.type = "integer" then
    match intParse tok.value.data with
    | some n => .ok (.int n)
    | none => .error .valueErr   -- int() on a non-numeral
  else if tok.type = "boolean" then .ok (.bool (tok.value = "true"))
  else .error (.runtimeErr ("Invalid constant token"))

/-- The evaluator, one fuel-indexed function covering the source's
mutually recursive procedures.  It always returns the final state, since
an escaping exception leaves already-performed writes (in particular
output) in place.  `envi` is the frame the current `execute` invocation
closes over: lookups start there, assignments land there. -/
def execRun : Nat → Nat → ETask → EvalSt → (Except Err ERes) × EvalSt
  | 0, _, _, st => (.error .outOfFuel, st)
  | f+1, envi, task, st =>
    match task with
    | .blockT [] => (.ok (.retR none), st)
    | .blockT (s :: rest) =>
      -- exec_block: `if ret: return ret`; every runtime value is a
      -- non-empty tuple and hence truthy, so this tests ret is not None
      match execRun f envi (.stmnt s) st with
      | (.ok (.retR (some v)), st') => (.ok (.retR (some v)), st')
      | (.ok (.retR none), st') => execRun f envi (.blockT rest) st'
      | (.ok _, st') => (.error evalShapeErr, st')
      | (.error e, st') => (.error e, st')
    | .stmnt s =>
      match s with
      | .ifS cond thn els =>
        -- exec_if
        match execRun f envi (.exprT cond) st with
        | (.ok (.valR c), st') =>
          match truthy c with
          | .ok true => execRun f envi (.blockT thn) st'
          | .ok false => execRun f envi (.blockT els) st'
          | .error e => (.error e, st')
        | (.ok _, st') => (.error evalShapeErr, st')
        | (.error e, st') => (.error e, st')
      | .whileS cond body => execRun f envi (.whileT cond body) st
      | .assign id e =>
        -- exec_assign: env[statement.id.value] = eval_expr(statement.expr)
        match execRun f envi (.exprT e) st with
        | (.ok (.valR v), st') =>
          (.ok (.retR none),
           {st' with frames := nsSet st'.frames envi id.value v})
        | (.ok _, st') => (.error evalShapeErr, st')
        | (.error e2, st') => (.error e2, st')
      | .funcDef id args body =>
        -- exec_func_def: bind a Function capturing the current frame
        (.ok (.retR none),
         {st with frames := nsSet st.frames envi id.value
                              (.func envi (args.map (fun t => t.value))
                                (.user body))})
      | .ret e =>
        -- exec_return
        match execRun f envi (.exprT e) st with
        | (.ok (.valR v), st') => (.ok (.retR (some v)), st')
        | (.ok _, st') => (.error evalShapeErr, st')
        | (.error e2, st') => (.error e2, st')
      | .call id args =>
        -- a FunctionCall as a statement: evaluate, discard the result
        match execRun f envi (.exprT (.call id args)) st with
        | (.ok (.valR _), st') => (.ok (.retR none), st')
        | (.ok _, st') => (.error evalShapeErr, st')
        | (.error e, st') => (.error e, st')
    | .whileT cond body =>
      -- exec_while: re-test the condition, run the body, propagate a
      -- non-None body result immediately
      match execRun f envi (.exprT cond) st with
      | (.ok (.valR c), st') =>
        match truthy c with
        | .ok false => (.ok (.retR none), st')
        | .ok true =>
          match execRun f envi (.blockT body) st' with
          | (.ok (.retR (some v)), st'') => (.ok (.retR (some v)), st'')
          | (.ok (.retR none), st'') => execRun f envi (.whileT cond body) st''
          | (.ok _, st'') => (.error evalShapeErr, st'')
          | (.error e, st'') => (.error e, st'')
        | .error e => (.error e, st')
      | (.ok _, st') => (.error evalShapeErr, st')
      | (.error e, st') => (.error e, st')
    | .argsT [] => (.ok (.valsR []), st)
    | .argsT (e :: es) =>
      match execRun f envi (.exprT e) st with
      | (.ok (.valR v), st') =>
        match execRun f envi (.argsT es) st' with
        | (.ok (.valsR vs), st'') => (.ok (.valsR (v :: vs)), st'')
        | (.ok _, st'') => (.error evalShapeErr, st'')
        | (.error e2, st'') => (.error e2, st'')
      | (.ok _, st') => (.error evalShapeErr, st')
      | (.error e2, st') => (.error e2, st')
    | .callT fval vals =>
      -- eval_func_call, after callee lookup and argument evaluation:
      -- build runenv with parent func.env, bind parameters positionally
      -- (zip truncates; later duplicates overwrite), invoke the body
      match fval with
      | .func fenv fargs body =>
        let envi2 := st.frames.length
        let st2 := pushCall st fenv fargs vals
        match body with
        | .user b =>
          match execRun f envi2 (.blockT b) st2 with
          | (.ok (.retR (some v)), st') => (.ok (.valR v), st')
          | (.ok (.retR none), st') => (.ok (.valR .pyNone), st')
          | (.ok _, st') => (.error evalShapeErr, st')
          | (.error e, st') => (.error e, st')
        | .prim p =>
          match applyPrim f p envi2 st2 with
          | (.ok (some v), st') => (.ok (.valR v), st')
          | (.ok none, st') => (.ok (.valR .pyNone), st')
          | (.error e, st') => (.error e, st')
      | _ =>
        -- func.env on a non-Function raises AttributeError
        (.error .attrErr, st)
    | .exprT e =>
      match e with
      | .constant tok =>
        match eval_const tok with
        | .ok v => (.ok (.valR v), st)
        | .error er => (.error er, st)
      | .varE tok =>
        -- eval_var: env[token.value]
        match envGet st envi tok.value with
        | .ok v => (.ok (.valR v), st)
        | .error er => (.error er, st)
      | .sequence elems =>
        -- eval_seq: evaluate elements left to right, allocate the list
        match execRun f envi (.argsT elems) st with
        | (.ok (.valsR vs), st') =>
          (.ok (.valR (.seqRef st'.seqs.length)),
           {st' with seqs := st'.seqs ++ [vs]})
        | (.ok _, st') => (.error evalShapeErr, st')
        | (.error er, st') => (.error er, st')
      | .orE _ lhs rhs =>
        -- eval_or
        match execRun f envi (.exprT lhs) st with
        | (.ok (.valR lv), st') =>
          match truthy lv with
          | .ok true => (.ok (.valR lv), st')
          | .ok false =>
            match execRun f envi (.exprT rhs) st' with
            | (.ok (.valR rv), st'') =>
              match truthy rv with
              | .ok true => (.ok (.valR rv), st'')
              | .ok false => (.ok (.valR (.bool false)), st'')
              | .error er => (.error er, st'')
            | (.ok _, st'') => (.error evalShapeErr, st'')
            | (.error er, st'') => (.error er, st'')
          | .error er => (.error er, st')
        | (.ok _, st') => (.error evalShapeErr, st')
        | (.error er, st') => (.error er, st')
      | .andE _ lhs rhs =>
        -- eval_and
        match execRun f envi (.exprT lhs) st with
        | (.ok (.valR lv), st') =>
          match truthy lv with
          | .ok false => (.ok (.valR (.bool false)), st')
          | .ok true =>
            match execRun f envi (.exprT rhs) st' with
            | (.ok (.valR rv), st'') =>
              match truthy rv with
              | .ok false => (.ok (.valR (.bool false)), st'')
              | .ok true => (.ok (.valR rv), st'')
              | .error er => (.error er, st'')
            | (.ok _, st'') => (.error evalShapeErr, st'')
            | (.error er, st'') => (.error er, st'')
          | .error er => (.error er, st')
        | (.ok _, st') => (.error evalShapeErr, st')
        | (.error er, st') => (.error er, st')
      | .notE _ rhs =>
        -- eval_not
        match execRun f envi (.exprT rhs) st with
        | (.ok (.valR v), st') =>
          match truthy v with
          | .ok b => (.ok (.valR (.bool (!b))), st')
          | .error er => (.error er, st')
        | (.ok _, st') => (.error evalShapeErr, st')
        | (.error er, st') => (.error er, st')
      | .compE op lhs rhs =>
        -- eval_comp: lhs value and its .val are taken before rhs runs
        match execRun f envi (.exprT lhs) st with
        | (.ok (.valR lv), st') =>
          if hasVal lv then
            match execRun f envi (.exprT rhs) st' with
            | (.ok (.valR rv), st'') =>
              if hasVal rv then
                match compApply f st'' op.type lv rv with
                | .ok v => (.ok (.valR v), st'')
                | .error er => (.error er, st'')
              else (.error .attrErr, st'')
            | (.ok _, st'') => (.error evalShapeErr, st'')
            | (.error er, st'') => (.error er, st'')
          else (.error .attrErr, st')
        | (.ok _, st') => (.error evalShapeErr, st')
        | (.error er, st') => (.error er, st')
      | .addE op lhs rhs =>
        match execRun f envi (.exprT lhs) st with
        | (.ok (.valR lv), st') =>
          if hasVal lv then
            match execRun f envi (.exprT rhs) st' with
            | (.ok (.valR rv), st'') =>
              if hasVal rv then
                match arithApply op.type lv rv with
                | .ok v => (.ok (.valR v), st'')
                | .error er => (.error er, st'')
              else (.error .attrErr, st'')
            | (.ok _, st'') => (.error evalShapeErr, st'')
            | (.error er, st'') => (.error er, st'')
          else (.error .attrErr, st')
        | (.ok _, st') => (.error evalShapeErr, st')
        | (.error er, st') => (.error er, st')
      | .mulE op lhs rhs =>
        match execRun f envi (.exprT lhs) st with
        | (.ok (.valR lv), st') =>
          if hasVal lv then
            match execRun f envi (.exprT rhs) st' with
            | (.ok (.valR rv), st'') =>
              if hasVal rv then
                match arithApply op.type lv rv with
                | .ok v => (.ok (.valR v), st'')
                | .error er => (.error er, st'')
              else (.error .attrErr, st'')
            | (.ok _, st'') => (.error evalShapeErr, st'')
            | (.error er, st'') => (.error er, st'')
          else (.error .attrErr, st')
        | (.ok _, st') => (.error evalShapeErr, st')
        | (.error er, st') => (.error er, st')
      | .signE op rhs =>
        -- eval_sign
        match execRun f envi (.exprT rhs) st with
        | (.ok (.valR v), st') =>
          if hasVal v then
            match signApply op.type v with
            | .ok r => (.ok (.valR r), st')
            | .error er => (.error er, st')
          else (.error .attrErr, st')
        | (.ok _, st') => (.error evalShapeErr, st')
        | (.error er, st') => (.error er, st')
      | .call id args =>
        -- eval_func_call: look up the callee, evaluate the arguments
        -- left to right, then invoke
        match envGet st envi id.value with
        | .error er => (.error er, st)
        | .ok fval =>
          match execRun f envi (.argsT args) st with
          | (.ok (.valsR vs), st') => execRun f envi (.callT fval vs) st'
          | (.ok _, st') => (.error evalShapeErr, st')
          | (.error er, st') => (.error er, st')

/-- The interleaved pipeline: execute(env, parse(tokenize(...))).
exec_block iterates over the parse generator, so one top-level statement
is parsed, then executed, before the next is parsed; a statement that
yields a non-None value stops the iteration (its value is discarded by
the caller of execute). -/
def interpretLoop : Nat → Nat → Nat → PState → EvalSt →
    (Except Err (Option Value)) × EvalSt
  | 0, _, _, _, st => (.error .outOfFuel, st)
  | d+1, pf, ef, ps, st =>
    if ps.tok.type = "eof" then (.ok none, st)
    else
      match parseRun pf .topLevel ps with
      | .error e => (.error e, st)
      | .ok (.stmnt s, ps') =>
        match execRun ef 0 (.stmnt s) st with
        | (.ok (.retR (some v)), st') => (.ok (some v), st')
        | (.ok (.retR none), st') => interpretLoop d pf ef ps' st'
        | (.ok _, st') => (.error evalShapeErr, st')
        | (.error e, st') => (.error e, st')
      | .ok _ => (.error shapeErr, st)

/-- Run a token stream through parse initialisation and the interleaved
statement loop against a starting state. -/
def interpret (pf ef df : Nat) (ts : List Token) (st : EvalSt) :
    (Except Err (Option Value)) × EvalSt :=
  match parseInit ts with
  | .error e => (.error e, st)
  | .ok ps => interpretLoop df pf ef ps st

/-- interpreter(instream, outstream), returning the text written to the
sink together with the outcome.  The source tokenizes lazily; this model
tokenizes eagerly, which is observationally equivalent except that a
lexical error late in the stream would here precede output of earlier
statements (no claim depends on that case).  Parsing is interleaved
statement by statement exactly as the generator pipeline does it. -/
def interpreter (pf ef df : Nat) (src : String) :
    (Except Err (Option Value)) × String :=
  match tokenize src with
  | .error e => (.error e, "")
  | .ok ts =>
    let r := interpret pf ef df ts build_global_environment
    (r.1, r.2.output)

/-! ## Claim checking -/

/-- Whether an error is the interpreter's own ErioRuntimeError. -/
def isRuntimeErr : Err → Bool
  | .runtimeErr _ => true
  | _ => false

/-- C1, counterexample: the source's truthiness test is
`obj.val == True`, and Python's `1 == True` holds, so Integer(1) is
truthy: the program `if 1 then print("yes") end-if` takes the then
branch and prints, while the claim says no Integer is ever truthy and
the (empty) else branch would run.  Also stated directly on the
truthiness test. -/
theorem c1_counterexample :
    truthy (.int 1) = .ok true
    ∧ interpreter 32 64 8 ("if 1 then print(\"yes\") end-if") = (.ok none, "yes") :=
  ⟨rfl, rfl⟩

/-- C1, amended: a value is treated as truthy if and only if it is
Boolean(true) or Integer(1); in particular an if statement whose
condition evaluates to a truthy value executes its then block. -/
theorem c1_truthiness :
    (∀ v : Value, truthy v = .ok true ↔ (v = .bool true ∨ v = .int 1))
    ∧ (∀ (f envi : Nat) (cond : Expr) (thn els : List Stmnt)
         (st st' : EvalSt) (v : Value),
        execRun f envi (.exprT cond) st = (.ok (.valR v), st') →
        truthy v = .ok true →
        execRun (f+1) envi (.stmnt (.ifS cond thn els)) st =
          execRun f envi (.blockT thn) st') := by
  constructor
  · intro v
    cases v <;> simp [truthy]
  · intro f envi cond thn els st st' v hc ht
    simp only [execRun, hc, ht]

/-- C1 witness for the conditional part: the condition `1` drives the
then branch of an if statement. -/
theorem c1_truthiness_witness :
    execRun 2 0 (.stmnt (.ifS (.constant ⟨"integer", "1"⟩)
        [.assign ⟨"identifier", "x"⟩ (.constant ⟨"boolean", "true"⟩)] []))
      build_global_environment =
      execRun 1 0 (.blockT [.assign ⟨"identifier", "x"⟩
        (.constant ⟨"boolean", "true"⟩)]) build_global_environment :=
  c1_truthiness.2 1 0 (.constant ⟨"integer", "1"⟩)
    [.assign ⟨"identifier", "x"⟩ (.constant ⟨"boolean", "true"⟩)] []
    build_global_environment build_global_environment (.int 1) rfl rfl

/-- C5: the precedence ladder on the claim's three examples:
`a + b * c` parses as AddExpr(a, MulExpr(b, c)); `a == 1 and b` parses
as AndExpr(CompExpr(a, 1), b); `not x or y` parses as
OrExpr(NotExpr(x), y) (each checked through the full pipeline in an
assignment context, as the repository's own parser tests do). -/
theorem c5_precedence :
    (match tokenize ("v = a + b * c") with
      | .ok ts => parseAll 32 ts
      | .error e => .error e) =
      .ok [.assign ⟨"identifier", "v"⟩
        (.addE ⟨"add", "+"⟩ (.varE ⟨"identifier", "a"⟩)
          (.mulE ⟨"mul", "*"⟩ (.varE ⟨"identifier", "b"⟩)
            (.varE ⟨"identifier", "c"⟩)))]
    ∧ (match tokenize ("v = a == 1 and b") with
      | .ok ts => parseAll 32 ts
      | .error e => .error e) =
      .ok [.assign ⟨"identifier", "v"⟩
        (.andE ⟨"and", "and"⟩
          (.compE ⟨"eq", "=="⟩ (.varE ⟨"identifier", "a"⟩)
            (.constant ⟨"integer", "1"⟩))
          (.varE ⟨"identifier", "b"⟩))]
    ∧ (match tokenize ("v = not x or y") with
      | .ok ts => parseAll 32 ts
      | .error e => .error e) =
      .ok [.assign ⟨"identifier", "v"⟩
        (.orE ⟨"or", "or"⟩
          (.notE ⟨"not", "not"⟩ (.varE ⟨"identifier", "x"⟩))
          (.varE ⟨"identifier", "y"⟩))] :=
  ⟨rfl, rfl, rfl⟩

/-- C10: parse pulls two tokens before yielding anything, so a stream of
fewer than two tokens errors; the empty source lexes to no tokens at
all, and interpreting it fails (with the host StopIteration) instead of
succeeding silently. -/
theorem c10_two_token_pull :
    (∀ ts : List Token, ts.length < 2 → parseInit ts = .error .stopIteration)
    ∧ tokenize ("") = .ok []
    ∧ interpreter 8 8 8 ("") = (.error .stopIteration, "") := by
  refine ⟨?_, rfl, rfl⟩
  intro ts h
  match ts with
  | [] => rfl
  | [t] => rfl
  | t1 :: t2 :: r => simp at h; omega

/-- C10 witness: the empty token stream itself. -/
theorem c10_two_token_pull_witness :
    parseInit [] = .error .stopIteration :=
  c10_two_token_pull.1 [] (by decide)

/-- C2, counterexample: the parser does not check the token it consumes
in the `then` position of an if statement, so replacing `then` by `do`
is accepted: the token stream of `if true do x = 1 end-if` parses to an
IfStmnt instead of being rejected with SyntaxError. -/
theorem c2_counterexample :
    (match tokenize ("if true do x = 1 end-if") with
      | .ok ts => parseAll 32 ts
      | .error e => .error e) =
      .ok [.ifS (.constant ⟨"boolean", "true"⟩)
        [.assign ⟨"identifier", "x"⟩ (.constant ⟨"integer", "1"⟩)] []] :=
  rfl

/-- C2, amended: the parser raises SyntaxError on an unexpected token at
its dispatch positions — statement dispatch on a kind outside if, while,
def, return, identifier; an identifier statement whose lookahead is
neither the assignment symbol nor an open parenthesis; an atom of an
unexpected kind — but the tokens at fixed keyword positions (`then`
after an if condition, `do` after a while condition, the close paren
after a parenthesized expression) are consumed by next_token without any
check of their kind, so a stream with such a keyword replaced parses
without error. -/
theorem c2_amended :
    (∀ (f : Nat) (ps : PState),
      ps.tok.type ∉ (["if", "while", "def", "return", "identifier"] : List String) →
      parseRun (f+1) .statement ps = .error (.syntaxErr ps.tok))
    ∧ (∀ (f : Nat) (ps : PState),
      ps.tok.type = "identifier" → ps.la.type ≠ "assignment" →
      ps.la.type ≠ "open-paren" →
      parseRun (f+1) .statement ps = .error (.syntaxErr ps.tok))
    ∧ (∀ (f : Nat) (ps : PState),
      ps.tok.type ∉ (["string", "integer", "boolean", "identifier",
        "open-bracket", "open-paren"] : List String) →
      parseRun (f+1) .atom ps = .error (.syntaxErr ps.tok))
    ∧ (match tokenize ("if true do x = 1 end-if") with
      | .ok ts => parseAll 32 ts
      | .error e => .error e) =
      .ok [.ifS (.constant ⟨"boolean", "true"⟩)
        [.assign ⟨"identifier", "x"⟩ (.constant ⟨"integer", "1"⟩)] []] := by
  refine ⟨?_, ?_, ?_, rfl⟩
  · intro f ps h
    simp only [List.mem_cons, List.not_mem_nil, or_false] at h
    push_neg at h
    obtain ⟨h1, h2, h3, h4, h5⟩ := h
    simp only [parseRun, h1, h2, h3, h4, h5]
    simp
  · intro f ps h1 h2 h3
    simp only [parseRun, h1, h2, h3]
    simp [h1, h2, h3]
  · intro f ps h
    simp only [List.mem_cons, List.not_mem_nil, or_false] at h
    push_neg at h
    obtain ⟨h1, h2, h3, h4, h5, h6⟩ := h
    simp only [parseRun, h1, h2, h3, h4, h5, h6]
    simp [h1, h2, h3, h4, h5, h6]

/-- C2 witness: statement dispatch on a lone `then` token is a
SyntaxError. -/
theorem c2_amended_witness :
    parseRun 1 .statement ⟨⟨"then", "then"⟩, eofToken, []⟩ =
      .error (.syntaxErr ⟨"then", "then"⟩) :=
  c2_amended.1 0 ⟨⟨"then", "then"⟩, eofToken, []⟩ (by decide)

/-- C6, counterexample: parsing is interleaved with execution through the
generator pipeline, so in `print("x") return 1` the print statement runs
and writes "x" to the sink before the parser reaches the top-level
return and raises SyntaxError: characters are written before the error,
while the claim says none are. -/
theorem c6_counterexample :
    interpreter 32 64 8 ("print(\"x\") return 1") =
      (.error (.syntaxErrMsg ("Return statement outside of function body")), "x") :=
  rfl

/-- C6, amended: when the first top-level statement of the stream is a
return, interpretation fails with SyntaxError with the state (hence the
output sink) untouched; statements before the return execute first and
their output stays written. -/
theorem c6_amended :
    ∀ (p ef d : Nat) (t0 t1 : Token) (rest : List Token) (st : EvalSt),
      t0.type = "return" →
      interpret (p+1) ef (d+1) (t0 :: t1 :: rest) st =
        (.error (.syntaxErrMsg ("Return statement outside of function body")), st) := by
  intro p ef d t0 t1 rest st h
  simp only [interpret, parseInit, interpretLoop, parseRun, h]
  simp

/-- C6 witness: the two-token stream of `return 1`. -/
theorem c6_amended_witness :
    interpret 1 0 1 [⟨"return", "return"⟩, ⟨"integer", "1"⟩]
        build_global_environment =
      (.error (.syntaxErrMsg ("Return statement outside of function body")),
       build_global_environment) :=
  c6_amended 0 0 0 ⟨"return", "return"⟩ ⟨"integer", "1"⟩ []
    build_global_environment rfl

/-- C3: eval_or evaluates the LHS first and, when it is truthy, returns
it with the LHS's resulting state — the RHS is not evaluated, so none of
its effects occur; otherwise the RHS decides: its value if truthy, else
Boolean(false).  eval_and returns Boolean(false) with the LHS's state
when the LHS is not truthy (RHS unevaluated); otherwise Boolean(false)
if the RHS is not truthy, else the RHS's value. -/
theorem c3_short_circuit :
    (∀ (f envi : Nat) (op : Token) (L R : Expr) (st st' : EvalSt) (v : Value),
      execRun f envi (.exprT L) st = (.ok (.valR v), st') →
      truthy v = .ok true →
      execRun (f+1) envi (.exprT (.orE op L R)) st = (.ok (.valR v), st'))
    ∧ (∀ (f envi : Nat) (op : Token) (L R : Expr) (st st' st'' : EvalSt)
        (v w : Value),
      execRun f envi (.exprT L) st = (.ok (.valR v), st') →
      truthy v = .ok false →
      execRun f envi (.exprT R) st' = (.ok (.valR w), st'') →
      truthy w = .ok true →
      execRun (f+1) envi (.exprT (.orE op L R)) st = (.ok (.valR w), st''))
    ∧ (∀ (f envi : Nat) (op : Token) (L R : Expr) (st st' st'' : EvalSt)
        (v w : Value),
      execRun f envi (.exprT L) st = (.ok (.valR v), st') →
      truthy v = .ok false →
      execRun f envi (.exprT R) st' = (.ok (.valR w), st'') →
      truthy w = .ok false →
      execRun (f+1) envi (.exprT (.orE op L R)) st =
        (.ok (.valR (.bool false)), st''))
    ∧ (∀ (f envi : Nat) (op : Token) (L R : Expr) (st st' : EvalSt) (v : Value),
      execRun f envi (.exprT L) st = (.ok (.valR v), st') →
      truthy v = .ok false →
      execRun (f+1) envi (.exprT (.andE op L R)) st =
        (.ok (.valR (.bool false)), st'))
    ∧ (∀ (f envi : Nat) (op : Token) (L R : Expr) (st st' st'' : EvalSt)
        (v w : Value),
      execRun f envi (.exprT L) st = (.ok (.valR v), st') →
      truthy v = .ok true →
      execRun f envi (.exprT R) st' = (.ok (.valR w), st'') →
      truthy w = .ok false →
      execRun (f+1) envi (.exprT (.andE op L R)) st =
        (.ok (.valR (.bool false)), st''))
    ∧ (∀ (f envi : Nat) (op : Token) (L R : Expr) (st st' st'' : EvalSt)
        (v w : Value),
      execRun f envi (.exprT L) st = (.ok (.valR v), st') →
      truthy v = .ok true →
      execRun f envi (.exprT R) st' = (.ok (.valR w), st'') →
      truthy w = .ok true →
      execRun (f+1) envi (.exprT (.andE op L R)) st = (.ok (.valR w), st'')) := by
  refine ⟨?_, ?_, ?_, ?_, ?_, ?_⟩
  · intro f envi op L R st st' v hL hv
    simp only [execRun, hL, hv]
  · intro f envi op L R st st' st'' v w hL hv hR hw
    simp only [execRun, hL, hv, hR, hw]
  · intro f envi op L R st st' st'' v w hL hv hR hw
    simp only [execRun, hL, hv, hR, hw]
  · intro f envi op L R st st' v hL hv
    simp only [execRun, hL, hv]
  · intro f envi op L R st st' st'' v w hL hv hR hw
    simp only [execRun, hL, hv, hR, hw]
  · intro f envi op L R st st' st'' v w hL hv hR hw
    simp only [execRun, hL, hv, hR, hw]

/-- C3 witness: all six branches at concrete operands; where the RHS is
a print call the resulting state is the untouched starting state, so the
short-circuit produced no output. -/
theorem c3_short_circuit_witness :
    execRun 2 0 (.exprT (.orE ⟨"or", "or"⟩ (.constant ⟨"boolean", "true"⟩)
        (.call ⟨"identifier", "print"⟩ [.constant ⟨"string", "\"hi\""⟩])))
      build_global_environment =
      (.ok (.valR (.bool true)), build_global_environment)
    ∧ execRun 2 0 (.exprT (.orE ⟨"or", "or"⟩ (.constant ⟨"boolean", "false"⟩)
        (.constant ⟨"boolean", "true"⟩))) build_global_environment =
      (.ok (.valR (.bool true)), build_global_environment)
    ∧ execRun 2 0 (.exprT (.orE ⟨"or", "or"⟩ (.constant ⟨"boolean", "false"⟩)
        (.constant ⟨"boolean", "false"⟩))) build_global_environment =
      (.ok (.valR (.bool false)), build_global_environment)
    ∧ execRun 2 0 (.exprT (.andE ⟨"and", "and"⟩ (.constant ⟨"boolean", "false"⟩)
        (.call ⟨"identifier", "print"⟩ [.constant ⟨"string", "\"hi\""⟩])))
      build_global_environment =
      (.ok (.valR (.bool false)), build_global_environment)
    ∧ execRun 2 0 (.exprT (.andE ⟨"and", "and"⟩ (.constant ⟨"boolean", "true"⟩)
        (.constant ⟨"boolean", "false"⟩))) build_global_environment =
      (.ok (.valR (.bool false)), build_global_environment)
    ∧ execRun 2 0 (.exprT (.andE ⟨"and", "and"⟩ (.constant ⟨"boolean", "true"⟩)
        (.constant ⟨"boolean", "true"⟩))) build_global_environment =
      (.ok (.valR (.bool true)), build_global_environment) :=
  ⟨c3_short_circuit.1 1 0 _ _ _ _ _ _ rfl rfl,
   c3_short_circuit.2.1 1 0 _ _ _ _ _ _ _ _ rfl rfl rfl rfl,
   c3_short_circuit.2.2.1 1 0 _ _ _ _ _ _ _ _ rfl rfl rfl rfl,
   c3_short_circuit.2.2.2.1 1 0 _ _ _ _ _ _ rfl rfl,
   c3_short_circuit.2.2.2.2.1 1 0 _ _ _ _ _ _ _ _ rfl rfl rfl rfl,
   c3_short_circuit.2.2.2.2.2 1 0 _ _ _ _ _ _ _ _ rfl rfl rfl rfl⟩

/-- The boolean literal `true` as a condition expression. -/
def trueCond : Expr := .constant ⟨"boolean", "true"⟩

def falseCond : Expr := .constant ⟨"boolean", "false"⟩

/-- One level of control-flow nesting around a statement: the then
branch of `if true`, the else branch of `if false`, or the body of
`while true`. -/
inductive NestK where
  | inThen | inElse | inWhile
  deriving Repr

def nestOne : NestK → Stmnt → Stmnt
  | .inThen, s => .ifS trueCond [s] []
  | .inElse, s => .ifS falseCond [] [s]
  | .inWhile, s => .whileS trueCond [s]

def nest (ks : List NestK) (s : Stmnt) : Stmnt := ks.foldr nestOne s

def nestCost : List NestK → Nat
  | [] => 0
  | .inThen :: ks => 2 + nestCost ks
  | .inElse :: ks => 2 + nestCost ks
  | .inWhile :: ks => 3 + nestCost ks

theorem step_ret (g envi : Nat) (e : Expr) (st st' : EvalSt) (v : Value)
    (h : execRun g envi (.exprT e) st = (.ok (.valR v), st')) :
    execRun (g+1) envi (.stmnt (.ret e)) st = (.ok (.retR (some v)), st') := by
  have base : execRun (g+1) envi (.stmnt (.ret e)) st =
      (match execRun g envi (.exprT e) st with
        | (.ok (.valR v), st') => (.ok (.retR (some v)), st')
        | (.ok _, st') => (.error evalShapeErr, st')
        | (.error e2, st') => (.error e2, st')) := rfl
  rw [base, h]

theorem step_block_ret (g envi : Nat) (s : Stmnt) (rest : List Stmnt)
    (st st' : EvalSt) (v : Value)
    (h : execRun g envi (.stmnt s) st = (.ok (.retR (some v)), st')) :
    execRun (g+1) envi (.blockT (s :: rest)) st = (.ok (.retR (some v)), st') := by
  have base : execRun (g+1) envi (.blockT (s :: rest)) st =
      (match execRun g envi (.stmnt s) st with
        | (.ok (.retR (some v)), st') => (.ok (.retR (some v)), st')
        | (.ok (.retR none), st') => execRun g envi (.blockT rest) st'
        | (.ok _, st') => (.error evalShapeErr, st')
        | (.error e, st') => (.error e, st')) := rfl
  rw [base, h]

theorem step_if_true (g envi : Nat) (thn els : List Stmnt) (st : EvalSt) :
    execRun (g+1+1) envi (.stmnt (.ifS trueCond thn els)) st =
      execRun (g+1) envi (.blockT thn) st := rfl

theorem step_if_false (g envi : Nat) (thn els : List Stmnt) (st : EvalSt) :
    execRun (g+1+1) envi (.stmnt (.ifS falseCond thn els)) st =
      execRun (g+1) envi (.blockT els) st := rfl

theorem step_while_ret (g envi : Nat) (body : List Stmnt) (st st' : EvalSt)
    (v : Value)
    (h : execRun (g+1) envi (.blockT body) st = (.ok (.retR (some v)), st')) :
    execRun (g+1+1+1) envi (.stmnt (.whileS trueCond body)) st =
      (.ok (.retR (some v)), st') := by
  have base : execRun (g+1+1+1) envi (.stmnt (.whileS trueCond body)) st =
      (match execRun (g+1) envi (.blockT body) st with
        | (.ok (.retR (some v)), st'') => (.ok (.retR (some v)), st'')
        | (.ok (.retR none), st'') => execRun (g+1) envi (.whileT trueCond body) st''
        | (.ok _, st'') => (.error evalShapeErr, st'')
        | (.error e, st'') => (.error e, st'')) := rfl
  rw [base, h]

/-- A return statement wrapped in arbitrarily many if/while levels
yields its value, with fuel linear in the nesting depth. -/
theorem nest_ret_propagation :
    ∀ (ks : List NestK) (f envi : Nat) (e : Expr) (st st' : EvalSt) (v : Value),
      execRun f envi (.exprT e) st = (.ok (.valR v), st') →
      execRun (nestCost ks + f + 1) envi (.stmnt (nest ks (.ret e))) st =
        (.ok (.retR (some v)), st') := by
  intro ks
  induction ks with
  | nil =>
    intro f envi e st st' v h
    have hc : nestCost [] + f + 1 = f + 1 := by simp [nestCost]
    rw [hc]
    exact step_ret f envi e st st' v h
  | cons k ks ih =>
    intro f envi e st st' v h
    have hstep := ih f envi e st st' v h
    have hblock := step_block_ret (nestCost ks + f + 1) envi (nest ks (.ret e)) []
      st st' v hstep
    match k with
    | .inThen =>
      have hc : nestCost (NestK.inThen :: ks) + f + 1 =
          ((nestCost ks + f + 1) + 1) + 1 := by simp [nestCost]; omega
      rw [hc]
      show execRun (((nestCost ks + f + 1) + 1) + 1) envi
        (.stmnt (.ifS trueCond [nest ks (.ret e)] [])) st = _
      rw [step_if_true (nestCost ks + f + 1) envi [nest ks (.ret e)] [] st]
      exact hblock
    | .inElse =>
      have hc : nestCost (NestK.inElse :: ks) + f + 1 =
          ((nestCost ks + f + 1) + 1) + 1 := by simp [nestCost]; omega
      rw [hc]
      show execRun (((nestCost ks + f + 1) + 1) + 1) envi
        (.stmnt (.ifS falseCond [] [nest ks (.ret e)])) st = _
      rw [step_if_false (nestCost ks + f + 1) envi [] [nest ks (.ret e)] st]
      exact hblock
    | .inWhile =>
      have hc : nestCost (NestK.inWhile :: ks) + f + 1 =
          (((nestCost ks + f + 1) + 1) + 1) + 1 := by simp [nestCost]; omega
      rw [hc]
      show execRun ((((nestCost ks + f + 1) + 1) + 1) + 1) envi
        (.stmnt (.whileS trueCond [nest ks (.ret e)])) st = _
      exact step_while_ret (nestCost ks + f + 1) envi [nest ks (.ret e)] st st' v
        hblock

theorem step_call_user (g envi fenv : Nat) (fargs : List String)
    (vals : List Value) (b : List Stmnt) (st st' : EvalSt) (v : Value)
    (h : execRun (g+1) st.frames.length (.blockT b) (pushCall st fenv fargs vals) =
      (.ok (.retR (some v)), st')) :
    execRun (g+1+1) envi (.callT (.func fenv fargs (.user b)) vals) st =
      (.ok (.valR v), st') := by
  have base : execRun (g+1+1) envi (.callT (.func fenv fargs (.user b)) vals) st =
      (match execRun (g+1) st.frames.length (.blockT b)
          (pushCall st fenv fargs vals) with
        | (.ok (.retR (some v)), st') => (.ok (.valR v), st')
        | (.ok (.retR none), st') => (.ok (.valR .pyNone), st')
        | (.ok _, st') => (.error evalShapeErr, st')
        | (.error e, st') => (.error e, st')) := rfl
  rw [base, h]

/-- C4: a block executes its statements in order and stops at the first
one yielding a non-null value: in particular a return nested in
arbitrarily many if and while levels ends the block at once, whatever
statements follow, and that exact value, propagated unchanged, is the
result of the enclosing function call. -/
theorem c4_return_propagation :
    (∀ (ks : List NestK) (rest : List Stmnt) (f envi : Nat) (e : Expr)
        (st st' : EvalSt) (v : Value),
      execRun f envi (.exprT e) st = (.ok (.valR v), st') →
      execRun (nestCost ks + f + 2) envi
          (.blockT (nest ks (.ret e) :: rest)) st =
        (.ok (.retR (some v)), st'))
    ∧ (∀ (ks : List NestK) (rest : List Stmnt) (f fenv envi : Nat)
        (fargs : List String) (vals : List Value) (e : Expr)
        (st st' : EvalSt) (v : Value),
      execRun f st.frames.length (.exprT e) (pushCall st fenv fargs vals) =
        (.ok (.valR v), st') →
      execRun (nestCost ks + f + 3) envi
          (.callT (.func fenv fargs (.user (nest ks (.ret e) :: rest))) vals) st =
        (.ok (.valR v), st')) := by
  constructor
  · intro ks rest f envi e st st' v h
    exact step_block_ret (nestCost ks + f + 1) envi (nest ks (.ret e)) rest st st' v
      (nest_ret_propagation ks f envi e st st' v h)
  · intro ks rest f fenv envi fargs vals e st st' v h
    have hb := step_block_ret (nestCost ks + f + 1) st.frames.length
      (nest ks (.ret e)) rest (pushCall st fenv fargs vals) st' v
      (nest_ret_propagation ks f st.frames.length e
        (pushCall st fenv fargs vals) st' v h)
    exact step_call_user (nestCost ks + f + 1) envi fenv fargs vals
      (nest ks (.ret e) :: rest) st st' v hb

/-- C4 witness: `return 5` inside if-inside-while with a trailing
statement stops the block; `return x` inside a while body is the result
of calling the enclosing one-parameter function on 7. -/
theorem c4_return_propagation_witness :
    execRun 8 0 (.blockT (nest [.inThen, .inWhile]
        (.ret (.constant ⟨"integer", "5"⟩)) ::
        [.ret (.constant ⟨"integer", "0"⟩)])) build_global_environment =
      (.ok (.retR (some (.int 5))), build_global_environment)
    ∧ execRun 7 0 (.callT (.func 0 ["x"]
        (.user (nest [.inWhile] (.ret (.varE ⟨"identifier", "x"⟩)) :: [])))
        [.int 7]) build_global_environment =
      (.ok (.valR (.int 7)),
       pushCall build_global_environment 0 ["x"] [.int 7]) :=
  ⟨c4_return_propagation.1 [.inThen, .inWhile] [.ret (.constant ⟨"integer", "0"⟩)]
      1 0 (.constant ⟨"integer", "5"⟩) build_global_environment
      build_global_environment (.int 5) rfl,
   c4_return_propagation.2 [.inWhile] [] 1 0 0 ["x"] [.int 7]
      (.varE ⟨"identifier", "x"⟩) build_global_environment
      (pushCall build_global_environment 0 ["x"] [.int 7]) (.int 7) rfl⟩

/-- A buffer holding an opening quote and at least one more character,
none of them a quote, matches no recognized lexeme form: not a keyword,
symbol, boolean or identifier (wrong first character), not a numeral,
and not a string (no closing quote), so make_token reports
InvalidToken. -/
theorem make_token_unterminated (mid : List Char) (hne : mid ≠ [])
    (hq : ∀ c ∈ mid, c ≠ '"') :
    make_token ('"' :: mid) = .error (.invalidToken (String.mk ('"' :: mid))) := by
  obtain ⟨d, mid', rfl⟩ : ∃ d mid', mid = d :: mid' := by
    cases mid with
    | nil => exact absurd rfl hne
    | cons d m => exact ⟨d, m, rfl⟩
  have hlast : ((d :: mid') : List Char).getLast? ≠ some '"' := by
    intro hcon
    obtain ⟨hh, hx⟩ := List.mem_getLast?_eq_getLast (Option.mem_def.mpr hcon)
    have hmem := List.getLast_mem hh
    rw [← hx] at hmem
    exact hq '"' hmem rfl
  have hkw : keywords.contains (String.mk ('"' :: d :: mid')) = false := by
    simp [keywords, String.ext_iff]
  have hsym : symbolLookup (String.mk ('"' :: d :: mid')) = none := by
    simp [symbolLookup, symbols, String.ext_iff]
  have hbool : booleanTest ('"' :: d :: mid') = false := by
    simp [booleanTest]
  have hident : pyIsIdentifier ('"' :: d :: mid') = false := by
    simp [pyIsIdentifier]
  have hdig : pyIsDigits ('"' :: d :: mid') = false := by
    simp [pyIsDigits]
  have hstr : stringTest ('"' :: d :: mid') = false := by
    simp only [stringTest, List.getLast?_cons_cons]
    simp [hlast]
  simp only [make_token, hkw, hsym, hbool, hident, hdig, hstr]
  simp

theorem unterminated_string_buffer :
    ∀ (cs mid : List Char), (∀ c ∈ cs, c ≠ '"') → (∀ c ∈ mid, c ≠ '"') →
      mid ++ cs ≠ [] →
      tokenizeAux cs ('"' :: mid) true =
        .error (.invalidToken (String.mk ('"' :: (mid ++ cs)))) := by
  intro cs
  induction cs with
  | nil =>
    intro mid _ hqm hne
    rw [List.append_nil] at hne ⊢
    show tokenizeAux [] ('"' :: mid) true = _
    simp only [tokenizeAux, List.isEmpty_cons]
    rw [make_token_unterminated mid hne hqm]
    simp
  | cons c cs ih =>
    intro mid hqc hqm hne
    have hc : c ≠ '"' := hqc c (List.mem_cons_self c cs)
    have hstep : tokenizeAux (c :: cs) ('"' :: mid) true =
        tokenizeAux cs (('"' :: mid) ++ [c]) true := by
      simp only [tokenizeAux]
      simp [hc]
    rw [hstep]
    have : ('"' :: mid) ++ [c] = '"' :: (mid ++ [c]) := by simp
    rw [this]
    have := ih (mid ++ [c]) (fun x hx => hqc x (List.mem_cons_of_mem c hx))
      (fun x hx => by
        rcases List.mem_append.mp hx with h | h
        · exact hqm x h
        · simp at h; subst h; exact hc)
      (by simp)
    rw [this]
    simp

/-- C7, counterexample: an input whose last lexeme is a lone `"` does
not yield InvalidToken: the single-character buffer starts and ends with
the same quote character, so the string test classifies it as a string
token. -/
theorem c7_counterexample : tokenize ("\"") = .ok [⟨"string", "\""⟩] := rfl

/-- C7, amended: a stream that ends in in-string mode finalizes its
buffer (the opening quote, the text read since, and the remaining
characters) as InvalidToken whenever that buffer has at least two
characters; the single exception is the buffer consisting of the lone
opening quote, which the classifier accepts as a string token. -/
theorem c7_unterminated_string :
    (∀ (cs mid : List Char), (∀ c ∈ cs, c ≠ '"') → (∀ c ∈ mid, c ≠ '"') →
      mid ++ cs ≠ [] →
      tokenizeAux cs ('"' :: mid) true =
        .error (.invalidToken (String.mk ('"' :: (mid ++ cs)))))
    ∧ tokenize ("\"") = .ok [⟨"string", "\""⟩] :=
  ⟨unterminated_string_buffer, rfl⟩

/-- C7 witness: from the in-string state with buffer `"` and remaining
characters `ab`, finalization reports the invalid lexeme `"ab`. -/
theorem c7_unterminated_string_witness :
    tokenizeAux ['a', 'b'] ['"'] true =
      .error (.invalidToken (String.mk ['"', 'a', 'b'])) :=
  c7_unterminated_string.1 ['a', 'b'] [] (by decide) (by decide) (by decide)

/-- The names bound in the global environment at startup. -/
def globalNames : List String :=
  [".out", "print", "add", "sub", "lt", "eq", "geti", "seti", "len", "insert"]

/-- C8, amended: looking up a name bound nowhere in the chain surfaces
the host KeyError (shown for the startup global environment and for
variable evaluation); geti outside -len..len-1 surfaces the host
IndexError, while a negative index -len ≤ i < 0 succeeds and reads from
the back; neither error is the interpreter's own ErioRuntimeError. -/
theorem c8_amended :
    (∀ k : String, k ∉ globalNames →
      envGet build_global_environment 0 k = .error (.keyErr k))
    ∧ (∀ (f envi : Nat) (tok : Token) (st : EvalSt),
      envGet st envi tok.value = .error (.keyErr tok.value) →
      execRun (f+1) envi (.exprT (.varE tok)) st =
        (.error (.keyErr tok.value), st))
    ∧ (∀ (l : List Value) (n : Int),
      ((l.length : Int) ≤ n ∨ n < -(l.length : Int)) →
      listIndex l n = .error .indexErr)
    ∧ (∀ (l : List Value) (n : Int) (v : Value),
      -(l.length : Int) ≤ n → n < 0 → l[(n + l.length).toNat]? = some v →
      listIndex l n = .ok v)
    ∧ (∀ k : String, isRuntimeErr (.keyErr k) = false)
    ∧ isRuntimeErr .indexErr = false := by
  refine ⟨?_, ?_, ?_, ?_, fun k => rfl, rfl⟩
  · intro k h
    simp only [globalNames, List.mem_cons, List.not_mem_nil, or_false] at h
    push_neg at h
    obtain ⟨h1, h2, h3, h4, h5, h6, h7, h8, h9, h10⟩ := h
    simp [envGet, build_global_environment, nsLookup, Frame.get, List.find?,
      Ne.symm h1, Ne.symm h2, Ne.symm h3, Ne.symm h4, Ne.symm h5, Ne.symm h6,
      Ne.symm h7, Ne.symm h8, Ne.symm h9, Ne.symm h10]
  · intro f envi tok st h
    simp only [execRun, h]
  · intro l n h
    simp only [listIndex]
    split_ifs with h1 h2
    · omega
    · omega
    · rfl
  · intro l n v hge hlt h
    simp only [listIndex]
    split_ifs with h1 h2
    · omega
    · rw [h]
    · omega

/-- C8 witness: the unbound name zzz, an out-of-range and a negative
index. -/
theorem c8_amended_witness :
    envGet build_global_environment 0 "zzz" = .error (.keyErr "zzz")
    ∧ execRun 1 0 (.exprT (.varE ⟨"identifier", "zzz"⟩))
        build_global_environment =
      (.error (.keyErr "zzz"), build_global_environment)
    ∧ listIndex [.int 3] 5 = .error .indexErr
    ∧ listIndex [.int 3] (-1) = .ok (.int 3) :=
  ⟨c8_amended.1 "zzz" (by decide),
   c8_amended.2.1 0 0 ⟨"identifier", "zzz"⟩ build_global_environment
     (c8_amended.1 "zzz" (by decide)),
   c8_amended.2.2.1 [.int 3] 5 (by simp),
   c8_amended.2.2.2.1 [.int 3] (-1) (.int 3) (by simp) (by simp) rfl⟩

/-- C8, counterexample: an unbound variable aborts with the host
KeyError and an out-of-range geti with the host IndexError — neither is
the interpreter's ErioRuntimeError carrying a description, as the claim
says. -/
theorem c8_counterexample :
    interpreter 32 64 8 ("print(zzz)") = (.error (.keyErr "zzz"), "")
    ∧ isRuntimeErr (.keyErr "zzz") = false
    ∧ interpreter 32 64 8 ("a = [1]\nprint(geti(a, 5))") = (.error .indexErr, "")
    ∧ isRuntimeErr .indexErr = false :=
  ⟨rfl, rfl, rfl, rfl⟩

/-- A name that user code can never spell: lookups and bindings with a
leading dot are out of reach of the lexer. -/
def goodNameStr (s : String) : Prop := s.data.head? ≠ some '.'

instance (s : String) : Decidable (goodNameStr s) := by
  unfold goodNameStr; infer_instance

/-- A token whose value does not start with a dot. -/
def goodTok (t : Token) : Prop := goodNameStr t.value

instance (t : Token) : Decidable (goodTok t) := by
  unfold goodTok; infer_instance

mutual

/-- Statements all of whose binding occurrences (assignment targets,
function names, parameter names) are dot-free, recursively. -/
inductive GoodStmnt : Stmnt → Prop where
  | ifS {c thn els} : GoodBlock thn → GoodBlock els → GoodStmnt (.ifS c thn els)
  | whileS {c b} : GoodBlock b → GoodStmnt (.whileS c b)
  | assign {id e} : goodTok id → GoodStmnt (.assign id e)
  | funcDef {id args body} : goodTok id → (∀ a ∈ args, goodTok a) →
      GoodBlock body → GoodStmnt (.funcDef id args body)
  | ret {e} : GoodStmnt (.ret e)
  | call {id args} : GoodStmnt (.call id args)

/-- Blocks of good statements. -/
inductive GoodBlock : List Stmnt → Prop where
  | nil : GoodBlock []
  | cons {s rest} : GoodStmnt s → GoodBlock rest → GoodBlock (s :: rest)

end

/-- A good function body: user bodies are good blocks, primitives are
opaque. -/
def GoodFB : FuncBody → Prop
  | .user b => GoodBlock b
  | .prim _ => True

/-- A good runtime value: every Function value carries dot-free
parameter names and a good body; other values are unconstrained. -/
def GoodVal : Value → Prop
  | .func _ args body => (∀ a ∈ args, goodNameStr a) ∧ GoodFB body
  | _ => True

/-- The binding of the reserved name in the global frame (frame 0). -/
def outBinding (st : EvalSt) : Option Value :=
  match st.frames with
  | [] => none
  | g :: _ => g.get ".out"

/-- The execution invariant: the global frame still maps '.out' to the
original sink, no other frame binds '.out' at all (nothing shadows it),
and every value stored in any frame or sequence is good. -/
def InvSt (st : EvalSt) : Prop :=
  outBinding st = some .sink
  ∧ (∀ fr ∈ st.frames.tail, fr.get ".out" = none)
  ∧ (∀ fr ∈ st.frames, ∀ kv ∈ fr.entries, GoodVal kv.2)
  ∧ (∀ l ∈ st.seqs, ∀ v ∈ l, GoodVal v)

/-- Task-shaped goodness hypotheses for the evaluator. -/
def GoodTask : ETask → Prop
  | .stmnt s => GoodStmnt s
  | .blockT b => GoodBlock b
  | .whileT _ body => GoodBlock body
  | .exprT _ => True
  | .argsT _ => True
  | .callT fval vals => GoodVal fval ∧ ∀ v ∈ vals, GoodVal v

/-- Result-shaped goodness conclusions for the evaluator. -/
def GoodRes : ERes → Prop
  | .retR (some v) => GoodVal v
  | .retR none => True
  | .valR v => GoodVal v
  | .valsR vs => ∀ v ∈ vs, GoodVal v

theorem goodNameStr_ne_out {s : String} (h : goodNameStr s) : s ≠ ".out" := by
  intro hc
  subst hc
  exact h rfl

theorem frame_get_set_ne {fr : Frame} {k k2 : String} {v : Value}
    (h : k ≠ k2) : (fr.set k v).get k2 = fr.get k2 := by
  simp [Frame.set, Frame.get, List.find?, h]

theorem frame_get_mem {fr : Frame} {k : String} {v : Value}
    (h : fr.get k = some v) : ∃ kv ∈ fr.entries, kv.2 = v := by
  unfold Frame.get at h
  cases hf : fr.entries.find? (fun p => p.1 = k) with
  | none => rw [hf] at h; cases h
  | some p =>
    rw [hf] at h
    refine ⟨p, List.mem_of_find?_eq_some hf, ?_⟩
    simpa using h

theorem nsLookup_good :
    ∀ (f : Nat) (frames : List Frame) (i : Nat) (k : String) (v : Value),
      (∀ fr ∈ frames, ∀ kv ∈ fr.entries, GoodVal kv.2) →
      nsLookup f frames i k = .ok v → GoodVal v := by
  intro f
  induction f with
  | zero => intro frames i k v _ h; cases h
  | succ f ih =>
    intro frames i k v hg h
    simp only [nsLookup] at h
    cases hfr : frames[i]? with
    | none => simp only [hfr] at h; cases h
    | some fr =>
      simp only [hfr] at h
      have hmem : fr ∈ frames := List.getElem?_mem hfr
      cases hget : fr.get k with
      | some w =>
        simp only [hget] at h
        obtain ⟨kv, hkv, hv⟩ := frame_get_mem hget
        cases h
        exact hv ▸ hg fr hmem kv hkv
      | none =>
        simp only [hget] at h
        cases hp : fr.parent with
        | some p => simp only [hp] at h; exact ih frames p k v hg h
        | none => simp only [hp] at h; cases h

theorem envGet_good {st : EvalSt} {envi : Nat} {k : String} {v : Value}
    (hinv : InvSt st) (h : envGet st envi k = .ok v) : GoodVal v :=
  nsLookup_good (st.frames.length + 1) st.frames envi k v hinv.2.2.1 h

theorem foldl_set_entries :
    ∀ (pairs : List (String × Value)) (fr : Frame) (kv : String × Value),
      kv ∈ (pairs.foldl (fun fr kv => fr.set kv.1 kv.2) fr).entries →
      kv ∈ fr.entries ∨ kv ∈ pairs := by
  intro pairs
  induction pairs with
  | nil => intro fr kv h; exact Or.inl h
  | cons p ps ih =>
    intro fr kv h
    rcases ih (fr.set p.1 p.2) kv h with hin | hin
    · simp only [Frame.set] at hin
      rcases List.mem_cons.mp hin with hd | htl
      · right; exact hd ▸ List.mem_cons_self p ps
      · left; exact htl
    · right; exact List.mem_cons_of_mem p hin

theorem callFrame_entries {fenv : Nat} {fargs : List String}
    {vals : List Value} {kv : String × Value}
    (h : kv ∈ (callFrame fenv fargs vals).entries) : kv ∈ fargs.zip vals := by
  simp only [callFrame] at h
  rcases foldl_set_entries (fargs.zip vals) ⟨[], some fenv⟩ kv h with hin | hin
  · cases hin
  · exact hin

theorem callFrame_get_out {fenv : Nat} {fargs : List String}
    {vals : List Value} (hargs : ∀ a ∈ fargs, goodNameStr a) :
    (callFrame fenv fargs vals).get ".out" = none := by
  unfold Frame.get
  rw [List.find?_eq_none.mpr]
  · rfl
  · intro kv hkv
    have hk : kv.1 ∈ fargs := (List.of_mem_zip (callFrame_entries hkv)).1
    have := goodNameStr_ne_out (hargs kv.1 hk)
    simp [this]

theorem inv_pushCall {st : EvalSt} {fenv : Nat} {fargs : List String}
    {vals : List Value} (hinv : InvSt st)
    (hargs : ∀ a ∈ fargs, goodNameStr a) (hvals : ∀ v ∈ vals, GoodVal v) :
    InvSt (pushCall st fenv fargs vals) := by
  obtain ⟨hout, hsh, hfr, hsq⟩ := hinv
  obtain ⟨g, rest, hfrs⟩ : ∃ g rest, st.frames = g :: rest := by
    unfold outBinding at hout
    cases hf : st.frames with
    | nil => rw [hf] at hout; cases hout
    | cons g rest => exact ⟨g, rest, rfl⟩
  refine ⟨?_, ?_, ?_, ?_⟩
  · unfold outBinding pushCall
    simp only [hfrs, List.cons_append]
    unfold outBinding at hout
    simpa [hfrs] using hout
  · intro fr hmem
    simp only [pushCall, hfrs, List.cons_append, List.tail_cons] at hmem
    rcases List.mem_append.mp hmem with hin | hin
    · exact hsh fr (by simp [hfrs, hin])
    · simp only [List.mem_singleton] at hin
      subst hin
      exact callFrame_get_out hargs
  · intro fr hmem kv hkv
    simp only [pushCall] at hmem
    rcases List.mem_append.mp hmem with hin | hin
    · exact hfr fr hin kv hkv
    · simp only [List.mem_singleton] at hin
      subst hin
      have := callFrame_entries hkv
      exact hvals kv.2 (List.of_mem_zip this).2
  · exact hsq

theorem inv_nsSet {st : EvalSt} {envi : Nat} {k : String} {v : Value}
    (hinv : InvSt st) (hk : goodNameStr k) (hv : GoodVal v) :
    InvSt {st with frames := nsSet st.frames envi k v} := by
  obtain ⟨hout, hsh, hfr, hsq⟩ := hinv
  unfold nsSet
  cases hfi : st.frames[envi]? with
  | none => exact ⟨hout, hsh, hfr, hsq⟩
  | some fr =>
    have hne : k ≠ ".out" := goodNameStr_ne_out hk
    refine ⟨?_, ?_, ?_, ?_⟩
    · unfold outBinding at hout ⊢
      cases hf : st.frames with
      | nil => rw [hf] at hout; cases hout
      | cons g rest =>
        cases envi with
        | zero =>
          simp only [hf, List.set_cons_zero]
          rw [hf] at hfi
          simp only [List.getElem?_cons_zero] at hfi
          cases hfi
          rw [frame_get_set_ne hne]
          simpa [hf] using hout
        | succ j =>
          simp only [hf, List.set_cons_succ]
          simpa [hf] using hout
    · intro fr2 hmem
      cases hf : st.frames with
      | nil => simp [hf] at hmem
      | cons g rest =>
        cases envi with
        | zero =>
          simp only [hf, List.set_cons_zero, List.tail_cons] at hmem
          exact hsh fr2 (by simp [hf, hmem])
        | succ j =>
          simp only [hf, List.set_cons_succ, List.tail_cons] at hmem
          rcases List.mem_or_eq_of_mem_set hmem with hin | rfl
          · exact hsh fr2 (by simp [hf, hin])
          · rw [hf] at hfi
            simp only [List.getElem?_cons_succ] at hfi
            have hfrm : fr ∈ rest := List.getElem?_mem hfi
            rw [frame_get_set_ne hne]
            exact hsh fr (by simp [hf, hfrm])
    · intro fr2 hmem kv hkv
      rcases List.mem_or_eq_of_mem_set hmem with hin | rfl
      · exact hfr fr2 hin kv hkv
      · simp only [Frame.set] at hkv
        rcases List.mem_cons.mp hkv with hd | htl
        · subst hd; exact hv
        · exact hfr fr (List.getElem?_mem hfi) kv htl
    · exact hsq

theorem inv_output {st : EvalSt} (hinv : InvSt st) (o : String) :
    InvSt {st with output := o} := hinv

theorem inv_seqAppend {st : EvalSt} {vs : List Value} (hinv : InvSt st)
    (hvs : ∀ v ∈ vs, GoodVal v) :
    InvSt {st with seqs := st.seqs ++ [vs]} := by
  obtain ⟨hout, hsh, hfr, hsq⟩ := hinv
  refine ⟨hout, hsh, hfr, ?_⟩
  intro l hl v hv
  rcases List.mem_append.mp hl with hin | hin
  · exact hsq l hin v hv
  · simp only [List.mem_singleton] at hin
    subst hin
    exact hvs v hv

theorem inv_seqSet {st : EvalSt} {r : Nat} {l2 : List Value} (hinv : InvSt st)
    (hl2 : ∀ v ∈ l2, GoodVal v) :
    InvSt {st with seqs := st.seqs.set r l2} := by
  obtain ⟨hout, hsh, hfr, hsq⟩ := hinv
  refine ⟨hout, hsh, hfr, ?_⟩
  intro l hl v hv
  rcases List.mem_or_eq_of_mem_set hl with hin | rfl
  · exact hsq l hin v hv
  · exact hl2 v hv

theorem listIndex_good {l : List Value} {n : Int} {v : Value}
    (hl : ∀ w ∈ l, GoodVal w) (h : listIndex l n = .ok v) : GoodVal v := by
  unfold listIndex at h
  split_ifs at h
  · cases hg : l[n.toNat]? with
    | none => rw [hg] at h; cases h
    | some w => rw [hg] at h; cases h; exact hl _ (List.getElem?_mem hg)
  · cases hg : l[(n + l.length).toNat]? with
    | none => rw [hg] at h; cases h
    | some w => rw [hg] at h; cases h; exact hl _ (List.getElem?_mem hg)

theorem listSetIndex_good {l : List Value} {n : Int} {v : Value}
    {l2 : List Value} (hl : ∀ w ∈ l, GoodVal w) (hv : GoodVal v)
    (h : listSetIndex l n v = .ok l2) : ∀ w ∈ l2, GoodVal w := by
  unfold listSetIndex at h
  split_ifs at h <;> cases h
  all_goals
    intro w hw
    rcases List.mem_or_eq_of_mem_set hw with hin | rfl
    · exact hl w hin
    · exact hv

theorem listInsertAt_good {l : List Value} {n : Int} {v : Value}
    (hl : ∀ w ∈ l, GoodVal w) (hv : GoodVal v) :
    ∀ w ∈ listInsertAt l n v, GoodVal w := by
  intro w hw
  unfold listInsertAt at hw
  rcases List.mem_append.mp hw with hin | hin
  · exact hl w (List.mem_of_mem_take hin)
  · rcases List.mem_cons.mp hin with rfl | hin
    · exact hv
    · exact hl w (List.mem_of_mem_drop hin)

theorem arithApply_good {ty : String} {a b v : Value}
    (h : arithApply ty a b = .ok v) : GoodVal v := by
  unfold arithApply at h
  cases hx : asInt a with
  | none => simp only [hx] at h; split_ifs at h
  | some x =>
    cases hy : asInt b with
    | none => simp only [hx, hy] at h; split_ifs at h
    | some y =>
      simp only [hx, hy] at h
      split_ifs at h <;> cases h <;> trivial

theorem applyPrim_preserves :
    ∀ (f : Nat) (p : Prim) (envi : Nat) (st : EvalSt) (o : Except Err (Option Value))
      (st2 : EvalSt), InvSt st → applyPrim f p envi st = (o, st2) →
      InvSt st2 ∧ ∀ v, o = .ok (some v) → GoodVal v := by
  intro f p envi st o st2 hinv h
  have triv : ∀ e : Err, (Except.error e, st) = (o, st2) →
      InvSt st2 ∧ ∀ v, o = .ok (some v) → GoodVal v := by
    intro e he; cases he; exact ⟨hinv, by intro v hv; cases hv⟩
  have trivN : (Except.ok (Option.none (α := Value)), st) = (o, st2) →
      InvSt st2 ∧ ∀ v, o = .ok (some v) → GoodVal v := by
    intro he; cases he; exact ⟨hinv, by intro v hv; cases hv⟩
  cases p with
  | printP =>
    cases h1 : envGet st envi "s" with
    | error e => simp only [applyPrim, h1] at h; exact triv _ h
    | ok v =>
      have houtcase : ∀ s : String,
          (match envGet st envi ".out" with
            | Except.ok Value.sink =>
                (Except.ok none, {st with output := st.output ++ s})
            | Except.ok _ => (Except.error Err.attrErr, st)
            | Except.error e => (Except.error e, st)) = (o, st2) →
          InvSt st2 ∧ ∀ v, o = .ok (some v) → GoodVal v := by
        intro s hh
        cases h2 : envGet st envi ".out" with
        | error e => simp only [h2] at hh; exact triv _ hh
        | ok w =>
          simp only [h2] at hh
          cases w <;> cases hh <;>
            exact ⟨hinv, by intro v hv; cases hv⟩
      cases v with
      | bool b =>
        simp only [applyPrim, h1] at h
        exact houtcase _ h
      | int n =>
        simp only [applyPrim, h1, printText] at h
        exact houtcase _ h
      | str s =>
        simp only [applyPrim, h1, printText] at h
        exact houtcase _ h
      | seqRef i =>
        simp only [applyPrim, h1, printText] at h
        cases hs : st.seqs[i]? with
        | none => simp only [hs] at h; exact triv _ h
        | some l =>
          simp only [hs] at h
          cases hr : reprRun f st (.inr l) with
          | error e => simp only [hr] at h; exact triv _ h
          | ok s =>
            simp only [hr] at h
            exact houtcase _ h
      | func a b c => simp only [applyPrim, h1, printText] at h; exact triv _ h
      | pyNone => simp only [applyPrim, h1, printText] at h; exact triv _ h
      | sink => simp only [applyPrim, h1, printText] at h; exact triv _ h
  | addP =>
    cases h1 : envGet st envi "lhs" with
    | error e => simp only [applyPrim, h1] at h; exact triv _ h
    | ok l =>
      cases h2 : envGet st envi "rhs" with
      | error e => simp only [applyPrim, h1, h2] at h; exact triv _ h
      | ok r =>
        simp only [applyPrim, h1, h2] at h
        split_ifs at h with hb
        · cases h3 : arithApply "add" l r with
          | error e => simp only [h3] at h; exact triv _ h
          | ok v =>
            simp only [h3] at h; cases h
            exact ⟨hinv, by intro w hw; cases hw; exact arithApply_good h3⟩
        · exact triv _ h
  | subP =>
    cases h1 : envGet st envi "lhs" with
    | error e => simp only [applyPrim, h1] at h; exact triv _ h
    | ok l =>
      cases h2 : envGet st envi "rhs" with
      | error e => simp only [applyPrim, h1, h2] at h; exact triv _ h
      | ok r =>
        simp only [applyPrim, h1, h2] at h
        split_ifs at h with hb
        · cases h3 : arithApply "sub" l r with
          | error e => simp only [h3] at h; exact triv _ h
          | ok v =>
            simp only [h3] at h; cases h
            exact ⟨hinv, by intro w hw; cases hw; exact arithApply_good h3⟩
        · exact triv _ h
  | ltP =>
    cases h1 : envGet st envi "lhs" with
    | error e => simp only [applyPrim, h1] at h; exact triv _ h
    | ok l =>
      cases h2 : envGet st envi "rhs" with
      | error e => simp only [applyPrim, h1, h2] at h; exact triv _ h
      | ok r =>
        simp only [applyPrim, h1, h2] at h
        split_ifs at h with hb
        · cases h3 : rawOrder f st l r with
          | error e => simp only [h3] at h; exact triv _ h
          | ok v =>
            simp only [h3] at h; cases h
            exact ⟨hinv, by intro w hw; cases hw; trivial⟩
        · exact triv _ h
  | eqP =>
    cases h1 : envGet st envi "lhs" with
    | error e => simp only [applyPrim, h1] at h; exact triv _ h
    | ok l =>
      cases h2 : envGet st envi "rhs" with
      | error e => simp only [applyPrim, h1, h2] at h; exact triv _ h
      | ok r =>
        simp only [applyPrim, h1, h2] at h
        split_ifs at h with hb
        · cases h3 : rawEq f st l r with
          | error e => simp only [h3] at h; exact triv _ h
          | ok v =>
            simp only [h3] at h; cases h
            exact ⟨hinv, by intro w hw; cases hw; trivial⟩
        · exact triv _ h
  | getiP =>
    cases h1 : envGet st envi "seq" with
    | error e => simp only [applyPrim, h1] at h; exact triv _ h
    | ok sv =>
      cases h2 : envGet st envi "i" with
      | error e =>
        simp only [applyPrim, h1, h2] at h
        cases sv <;> exact triv _ h
      | ok iv =>
        simp only [applyPrim, h1, h2] at h
        cases sv with
        | seqRef r =>
          cases hs : st.seqs[r]? with
          | none => simp only [hs] at h; exact triv _ h
          | some l =>
            simp only [hs] at h
            cases hii : asInt iv with
            | none => simp only [hii] at h; exact triv _ h
            | some n =>
              simp only [hii] at h
              cases hli : listIndex l n with
              | error e => simp only [hli] at h; exact triv _ h
              | ok v =>
                simp only [hli] at h; cases h
                refine ⟨hinv, ?_⟩
                intro w hw; cases hw
                exact listIndex_good (hinv.2.2.2 l (List.getElem?_mem hs)) hli
        | int n => simp only [hasVal] at h; exact triv _ h
        | str s => simp only [hasVal] at h; exact triv _ h
        | bool b => simp only [hasVal] at h; exact triv _ h
        | func a b c => simp only [hasVal] at h; exact triv _ h
        | pyNone => simp only [hasVal] at h; exact triv _ h
        | sink => simp only [hasVal] at h; exact triv _ h
  | setiP =>
    cases h1 : envGet st envi "seq" with
    | error e => simp only [applyPrim, h1] at h; exact triv _ h
    | ok sv =>
      cases h2 : envGet st envi "i" with
      | error e =>
        simp only [applyPrim, h1, h2] at h
        cases sv <;> exact triv _ h
      | ok iv =>
        cases h3 : envGet st envi "value" with
        | error e =>
          simp only [applyPrim, h1, h2, h3] at h
          cases sv <;> exact triv _ h
        | ok v =>
          simp only [applyPrim, h1, h2, h3] at h
          cases sv with
          | seqRef r =>
            cases hs : st.seqs[r]? with
            | none => simp only [hs] at h; exact triv _ h
            | some l =>
              simp only [hs] at h
              cases hii : asInt iv with
              | none => simp only [hii] at h; exact triv _ h
              | some n =>
                simp only [hii] at h
                cases hsi : listSetIndex l n v with
                | error e => simp only [hsi] at h; exact triv _ h
                | ok l2 =>
                  simp only [hsi] at h; cases h
                  refine ⟨?_, by intro w hw; cases hw⟩
                  exact inv_seqSet hinv
                    (listSetIndex_good (hinv.2.2.2 l (List.getElem?_mem hs))
                      (envGet_good hinv h3) hsi)
          | int n => simp only [hasVal] at h; exact triv _ h
          | str s => simp only [hasVal] at h; exact triv _ h
          | bool b => simp only [hasVal] at h; exact triv _ h
          | func a b c => simp only [hasVal] at h; exact triv _ h
          | pyNone => simp only [hasVal] at h; exact triv _ h
          | sink => simp only [hasVal] at h; exact triv _ h
  | lenP =>
    cases h1 : envGet st envi "seq" with
    | error e => simp only [applyPrim, h1] at h; exact triv _ h
    | ok sv =>
      simp only [applyPrim, h1] at h
      cases sv with
      | seqRef r =>
        cases hs : st.seqs[r]? with
        | none => simp only [hs] at h; exact triv _ h
        | some l =>
          simp only [hs] at h; cases h
          exact ⟨hinv, by intro w hw; cases hw; trivial⟩
      | int n => simp only [hasVal] at h; exact triv _ h
      | str s =>
        simp only at h; cases h
        exact ⟨hinv, by intro w hw; cases hw; trivial⟩
      | bool b => simp only [hasVal] at h; exact triv _ h
      | func a b c => simp only [hasVal] at h; exact triv _ h
      | pyNone => simp only [hasVal] at h; exact triv _ h
      | sink => simp only [hasVal] at h; exact triv _ h
  | insertP =>
    cases h1 : envGet st envi "seq" with
    | error e => simp only [applyPrim, h1] at h; exact triv _ h
    | ok sv =>
      cases h2 : envGet st envi "i" with
      | error e =>
        simp only [applyPrim, h1, h2] at h
        cases sv <;> exact triv _ h
      | ok iv =>
        cases h3 : envGet st envi "value" with
        | error e =>
          simp only [applyPrim, h1, h2, h3] at h
          cases sv <;> exact triv _ h
        | ok v =>
          simp only [applyPrim, h1, h2, h3] at h
          cases sv with
          | seqRef r =>
            cases hs : st.seqs[r]? with
            | none => simp only [hs] at h; exact triv _ h
            | some l =>
              simp only [hs] at h
              cases hii : asInt iv with
              | none => simp only [hii] at h; exact triv _ h
              | some n =>
                simp only [hii] at h; cases h
                refine ⟨?_, by intro w hw; cases hw⟩
                exact inv_seqSet hinv
                  (listInsertAt_good (hinv.2.2.2 l (List.getElem?_mem hs))
                    (envGet_good hinv h3))
          | int n => simp only [hasVal] at h; exact triv _ h
          | str s => simp only [hasVal] at h; exact triv _ h
          | bool b => simp only [hasVal] at h; exact triv _ h
          | func a b c => simp only [hasVal] at h; exact triv _ h
          | pyNone => simp only [hasVal] at h; exact triv _ h
          | sink => simp only [hasVal] at h; exact triv _ h

theorem eval_const_good {tok : Token} {v : Value}
    (h : eval_const tok = .ok v) : GoodVal v := by
  unfold eval_const at h
  split_ifs at h
  · cases h; trivial
  · cases hi : intParse tok.value.data with
    | none => rw [hi] at h; cases h
    | some n => rw [hi] at h; cases h; trivial
  · cases h; trivial

theorem compApply_good {fuel : Nat} {st : EvalSt} {ty : String} {a b v : Value}
    (h : compApply fuel st ty a b = .ok v) : GoodVal v := by
  unfold compApply at h
  split_ifs at h <;>
    first
    | (cases hq : rawEq fuel st a b with
        | error e => rw [hq] at h; cases h
        | ok r => rw [hq] at h; cases h; trivial)
    | (cases hq : rawOrder fuel st a b with
        | error e => rw [hq] at h; cases h
        | ok r => rw [hq] at h; cases h; trivial)

theorem signApply_good {ty : String} {a v : Value}
    (h : signApply ty a = .ok v) : GoodVal v := by
  unfold signApply at h
  cases hx : asInt a with
  | none => simp only [hx] at h; split_ifs at h
  | some x => simp only [hx] at h; split_ifs at h <;> cases h <;> trivial

theorem execRun_preserves :
    ∀ (f envi : Nat) (t : ETask) (st : EvalSt) (o : Except Err ERes)
      (st2 : EvalSt),
      InvSt st → GoodTask t → execRun f envi t st = (o, st2) →
      InvSt st2 ∧ ∀ r, o = .ok r → GoodRes r := by
  intro f
  induction f with
  | zero =>
    intro envi t st o st2 hinv _ h
    cases h
    exact ⟨hinv, by intro r hr; cases hr⟩
  | succ f ih =>
    intro envi t st o st2 hinv hgood h
    cases t with
    | blockT b =>
      cases b with
      | nil =>
        simp only [execRun] at h
        cases h
        exact ⟨hinv, by intro r hr; cases hr; trivial⟩
      | cons s rest =>
        cases hgood with
        | cons hgs hgr =>
        rcases h1 : execRun f envi (.stmnt s) st with ⟨o1, st1⟩
        have H1 := ih envi (.stmnt s) st o1 st1 hinv hgs h1
        simp only [execRun, h1] at h
        cases o1 with
        | error e => cases h; exact ⟨H1.1, by intro r hr; cases hr⟩
        | ok r1 =>
          cases r1 with
          | retR ro =>
            cases ro with
            | some v =>
              cases h
              exact ⟨H1.1, by intro r hr; cases hr; exact H1.2 _ rfl⟩
            | none => exact ih envi (.blockT rest) st1 o st2 H1.1 hgr h
          | valR v => cases h; exact ⟨H1.1, by intro r hr; cases hr⟩
          | valsR vs => cases h; exact ⟨H1.1, by intro r hr; cases hr⟩
    | stmnt s =>
      cases s with
      | ifS cond thn els =>
        cases hgood with
        | ifS hthn hels =>
        rcases h1 : execRun f envi (.exprT cond) st with ⟨o1, st1⟩
        have H1 := ih envi (.exprT cond) st o1 st1 hinv trivial h1
        simp only [execRun, h1] at h
        cases o1 with
        | error e => cases h; exact ⟨H1.1, by intro r hr; cases hr⟩
        | ok r1 =>
          cases r1 with
          | valR c =>
            cases ht : truthy c with
            | error e => simp only [ht] at h; cases h
                         exact ⟨H1.1, by intro r hr; cases hr⟩
            | ok bv =>
              simp only [ht] at h
              cases bv with
              | true => exact ih envi (.blockT thn) st1 o st2 H1.1 hthn h
              | false => exact ih envi (.blockT els) st1 o st2 H1.1 hels h
          | retR ro => cases h; exact ⟨H1.1, by intro r hr; cases hr⟩
          | valsR vs => cases h; exact ⟨H1.1, by intro r hr; cases hr⟩
      | whileS cond body =>
        cases hgood with
        | whileS hbody =>
        simp only [execRun] at h
        exact ih envi (.whileT cond body) st o st2 hinv hbody h
      | assign id e =>
        cases hgood with
        | assign hid =>
        rcases h1 : execRun f envi (.exprT e) st with ⟨o1, st1⟩
        have H1 := ih envi (.exprT e) st o1 st1 hinv trivial h1
        simp only [execRun, h1] at h
        cases o1 with
        | error e2 => cases h; exact ⟨H1.1, by intro r hr; cases hr⟩
        | ok r1 =>
          cases r1 with
          | valR v =>
            cases h
            exact ⟨inv_nsSet H1.1 hid (H1.2 _ rfl),
              by intro r hr; cases hr; trivial⟩
          | retR ro => cases h; exact ⟨H1.1, by intro r hr; cases hr⟩
          | valsR vs => cases h; exact ⟨H1.1, by intro r hr; cases hr⟩
      | funcDef id args body =>
        cases hgood with
        | funcDef hid hargs hbody =>
        simp only [execRun] at h
        cases h
        refine ⟨inv_nsSet hinv hid ?_, by intro r hr; cases hr; trivial⟩
        refine ⟨?_, hbody⟩
        intro a ha
        obtain ⟨t, ht, rfl⟩ := List.mem_map.mp ha
        exact hargs t ht
      | ret e =>
        rcases h1 : execRun f envi (.exprT e) st with ⟨o1, st1⟩
        have H1 := ih envi (.exprT e) st o1 st1 hinv trivial h1
        simp only [execRun, h1] at h
        cases o1 with
        | error e2 => cases h; exact ⟨H1.1, by intro r hr; cases hr⟩
        | ok r1 =>
          cases r1 with
          | valR v =>
            cases h
            exact ⟨H1.1, by intro r hr; cases hr; exact H1.2 (.valR v) rfl⟩
          | retR ro => cases h; exact ⟨H1.1, by intro r hr; cases hr⟩
          | valsR vs => cases h; exact ⟨H1.1, by intro r hr; cases hr⟩
      | call id args =>
        rcases h1 : execRun f envi (.exprT (.call id args)) st with ⟨o1, st1⟩
        have H1 := ih envi (.exprT (.call id args)) st o1 st1 hinv trivial h1
        simp only [execRun, h1] at h
        cases o1 with
        | error e2 => cases h; exact ⟨H1.1, by intro r hr; cases hr⟩
        | ok r1 =>
          cases r1 with
          | valR v => cases h; exact ⟨H1.1, by intro r hr; cases hr; trivial⟩
          | retR ro => cases h; exact ⟨H1.1, by intro r hr; cases hr⟩
          | valsR vs => cases h; exact ⟨H1.1, by intro r hr; cases hr⟩
    | whileT cond body =>
      rcases h1 : execRun f envi (.exprT cond) st with ⟨o1, st1⟩
      have H1 := ih envi (.exprT cond) st o1 st1 hinv trivial h1
      simp only [execRun, h1] at h
      cases o1 with
      | error e => cases h; exact ⟨H1.1, by intro r hr; cases hr⟩
      | ok r1 =>
        cases r1 with
        | valR c =>
          cases ht : truthy c with
          | error e => simp only [ht] at h; cases h
                       exact ⟨H1.1, by intro r hr; cases hr⟩
          | ok bv =>
            simp only [ht] at h
            cases bv with
            | false => cases h; exact ⟨H1.1, by intro r hr; cases hr; trivial⟩
            | true =>
              rcases h2 : execRun f envi (.blockT body) st1 with ⟨o2, st3⟩
              have H2 := ih envi (.blockT body) st1 o2 st3 H1.1 hgood h2
              simp only [h2] at h
              cases o2 with
              | error e => cases h; exact ⟨H2.1, by intro r hr; cases hr⟩
              | ok r2 =>
                cases r2 with
                | retR ro =>
                  cases ro with
                  | some v =>
                    cases h
                    exact ⟨H2.1, by intro r hr; cases hr; exact H2.2 _ rfl⟩
                  | none =>
                    exact ih envi (.whileT cond body) st3 o st2 H2.1 hgood h
                | valR v => cases h; exact ⟨H2.1, by intro r hr; cases hr⟩
                | valsR vs => cases h; exact ⟨H2.1, by intro r hr; cases hr⟩
        | retR ro => cases h; exact ⟨H1.1, by intro r hr; cases hr⟩
        | valsR vs => cases h; exact ⟨H1.1, by intro r hr; cases hr⟩
    | argsT es =>
      cases es with
      | nil =>
        simp only [execRun] at h
        cases h
        exact ⟨hinv, by intro r hr; cases hr; intro v hv; cases hv⟩
      | cons e es =>
        rcases h1 : execRun f envi (.exprT e) st with ⟨o1, st1⟩
        have H1 := ih envi (.exprT e) st o1 st1 hinv trivial h1
        simp only [execRun, h1] at h
        cases o1 with
        | error e2 => cases h; exact ⟨H1.1, by intro r hr; cases hr⟩
        | ok r1 =>
          cases r1 with
          | valR v =>
            rcases h2 : execRun f envi (.argsT es) st1 with ⟨o2, st3⟩
            have H2 := ih envi (.argsT es) st1 o2 st3 H1.1 trivial h2
            simp only [h2] at h
            cases o2 with
            | error e2 => cases h; exact ⟨H2.1, by intro r hr; cases hr⟩
            | ok r2 =>
              cases r2 with
              | valsR vs =>
                cases h
                refine ⟨H2.1, ?_⟩
                intro r hr
                cases hr
                intro w hw
                rcases List.mem_cons.mp hw with rfl | hin
                · exact H1.2 _ rfl
                · exact H2.2 _ rfl w hin
              | valR v2 => cases h; exact ⟨H2.1, by intro r hr; cases hr⟩
              | retR ro => cases h; exact ⟨H2.1, by intro r hr; cases hr⟩
          | retR ro => cases h; exact ⟨H1.1, by intro r hr; cases hr⟩
          | valsR vs => cases h; exact ⟨H1.1, by intro r hr; cases hr⟩
    | callT fval vals =>
      obtain ⟨hfv, hvals⟩ := hgood
      cases fval with
      | func fenv fargs body =>
        obtain ⟨hargsGood, hbodyGood⟩ := hfv
        have hinv2 : InvSt (pushCall st fenv fargs vals) :=
          inv_pushCall hinv hargsGood hvals
        cases body with
        | user b =>
          rcases h2 : execRun f st.frames.length (.blockT b)
              (pushCall st fenv fargs vals) with ⟨o2, st3⟩
          have H2 := ih st.frames.length (.blockT b) (pushCall st fenv fargs vals)
            o2 st3 hinv2 hbodyGood h2
          simp only [execRun, h2] at h
          cases o2 with
          | error e => cases h; exact ⟨H2.1, by intro r hr; cases hr⟩
          | ok r2 =>
            cases r2 with
            | retR ro =>
              cases ro with
              | some v =>
                cases h
                exact ⟨H2.1,
                  by intro r hr; cases hr; exact H2.2 (.retR (some v)) rfl⟩
              | none => cases h; exact ⟨H2.1, by intro r hr; cases hr; trivial⟩
            | valR v => cases h; exact ⟨H2.1, by intro r hr; cases hr⟩
            | valsR vs => cases h; exact ⟨H2.1, by intro r hr; cases hr⟩
        | prim p =>
          rcases h2 : applyPrim f p st.frames.length (pushCall st fenv fargs vals)
            with ⟨o2, st3⟩
          have H2 := applyPrim_preserves f p st.frames.length
            (pushCall st fenv fargs vals) o2 st3 hinv2 h2
          simp only [execRun, h2] at h
          cases o2 with
          | error e => cases h; exact ⟨H2.1, by intro r hr; cases hr⟩
          | ok ro =>
            cases ro with
            | some v =>
              cases h
              exact ⟨H2.1, by intro r hr; cases hr; exact H2.2 _ rfl⟩
            | none => cases h; exact ⟨H2.1, by intro r hr; cases hr; trivial⟩
      | int n => simp only [execRun] at h; cases h
                 exact ⟨hinv, by intro r hr; cases hr⟩
      | str s => simp only [execRun] at h; cases h
                 exact ⟨hinv, by intro r hr; cases hr⟩
      | bool b => simp only [execRun] at h; cases h
                  exact ⟨hinv, by intro r hr; cases hr⟩
      | seqRef i => simp only [execRun] at h; cases h
                    exact ⟨hinv, by intro r hr; cases hr⟩
      | pyNone => simp only [execRun] at h; cases h
                  exact ⟨hinv, by intro r hr; cases hr⟩
      | sink => simp only [execRun] at h; cases h
                exact ⟨hinv, by intro r hr; cases hr⟩
    | exprT e =>
      cases e with
      | constant tok =>
        simp only [execRun] at h
        cases hc : eval_const tok with
        | error e2 => simp only [hc] at h; cases h
                      exact ⟨hinv, by intro r hr; cases hr⟩
        | ok v =>
          simp only [hc] at h; cases h
          exact ⟨hinv, by intro r hr; cases hr; exact eval_const_good hc⟩
      | varE tok =>
        simp only [execRun] at h
        cases he : envGet st envi tok.value with
        | error e2 => simp only [he] at h; cases h
                      exact ⟨hinv, by intro r hr; cases hr⟩
        | ok v =>
          simp only [he] at h; cases h
          exact ⟨hinv, by intro r hr; cases hr; exact envGet_good hinv he⟩
      | sequence elems =>
        rcases h1 : execRun f envi (.argsT elems) st with ⟨o1, st1⟩
        have H1 := ih envi (.argsT elems) st o1 st1 hinv trivial h1
        simp only [execRun, h1] at h
        cases o1 with
        | error e2 => cases h; exact ⟨H1.1, by intro r hr; cases hr⟩
        | ok r1 =>
          cases r1 with
          | valsR vs =>
            cases h
            exact ⟨inv_seqAppend H1.1 (H1.2 _ rfl),
              by intro r hr; cases hr; trivial⟩
          | valR v => cases h; exact ⟨H1.1, by intro r hr; cases hr⟩
          | retR ro => cases h; exact ⟨H1.1, by intro r hr; cases hr⟩
      | orE op lhs rhs =>
        rcases h1 : execRun f envi (.exprT lhs) st with ⟨o1, st1⟩
        have H1 := ih envi (.exprT lhs) st o1 st1 hinv trivial h1
        simp only [execRun, h1] at h
        cases o1 with
        | error e2 => cases h; exact ⟨H1.1, by intro r hr; cases hr⟩
        | ok r1 =>
          cases r1 with
          | valR lv =>
            cases ht : truthy lv with
            | error e2 => simp only [ht] at h; cases h
                          exact ⟨H1.1, by intro r hr; cases hr⟩
            | ok bv =>
              simp only [ht] at h
              cases bv with
              | true =>
                cases h
                exact ⟨H1.1, by intro r hr; cases hr; exact H1.2 _ rfl⟩
              | false =>
                rcases h2 : execRun f envi (.exprT rhs) st1 with ⟨o2, st3⟩
                have H2 := ih envi (.exprT rhs) st1 o2 st3 H1.1 trivial h2
                simp only [h2] at h
                cases o2 with
                | error e2 => cases h; exact ⟨H2.1, by intro r hr; cases hr⟩
                | ok r2 =>
                  cases r2 with
                  | valR rv =>
                    cases ht2 : truthy rv with
                    | error e2 => simp only [ht2] at h; cases h
                                  exact ⟨H2.1, by intro r hr; cases hr⟩
                    | ok bv2 =>
                      simp only [ht2] at h
                      cases bv2 with
                      | true =>
                        cases h
                        exact ⟨H2.1, by intro r hr; cases hr; exact H2.2 _ rfl⟩
                      | false =>
                        cases h
                        exact ⟨H2.1, by intro r hr; cases hr; trivial⟩
                  | retR ro => cases h; exact ⟨H2.1, by intro r hr; cases hr⟩
                  | valsR vs => cases h; exact ⟨H2.1, by intro r hr; cases hr⟩
          | retR ro => cases h; exact ⟨H1.1, by intro r hr; cases hr⟩
          | valsR vs => cases h; exact ⟨H1.1, by intro r hr; cases hr⟩
      | andE op lhs rhs =>
        rcases h1 : execRun f envi (.exprT lhs) st with ⟨o1, st1⟩
        have H1 := ih envi (.exprT lhs) st o1 st1 hinv trivial h1
        simp only [execRun, h1] at h
        cases o1 with
        | error e2 => cases h; exact ⟨H1.1, by intro r hr; cases hr⟩
        | ok r1 =>
          cases r1 with
          | valR lv =>
            cases ht : truthy lv with
            | error e2 => simp only [ht] at h; cases h
                          exact ⟨H1.1, by intro r hr; cases hr⟩
            | ok bv =>
              simp only [ht] at h
              cases bv with
              | false =>
                cases h
                exact ⟨H1.1, by intro r hr; cases hr; trivial⟩
              | true =>
                rcases h2 : execRun f envi (.exprT rhs) st1 with ⟨o2, st3⟩
                have H2 := ih envi (.exprT rhs) st1 o2 st3 H1.1 trivial h2
                simp only [h2] at h
                cases o2 with
                | error e2 => cases h; exact ⟨H2.1, by intro r hr; cases hr⟩
                | ok r2 =>
                  cases r2 with
                  | valR rv =>
                    cases ht2 : truthy rv with
                    | error e2 => simp only [ht2] at h; cases h
                                  exact ⟨H2.1, by intro r hr; cases hr⟩
                    | ok bv2 =>
                      simp only [ht2] at h
                      cases bv2 with
                      | false =>
                        cases h
                        exact ⟨H2.1, by intro r hr; cases hr; trivial⟩
                      | true =>
                        cases h
                        exact ⟨H2.1, by intro r hr; cases hr; exact H2.2 _ rfl⟩
                  | retR ro => cases h; exact ⟨H2.1, by intro r hr; cases hr⟩
                  | valsR vs => cases h; exact ⟨H2.1, by intro r hr; cases hr⟩
          | retR ro => cases h; exact ⟨H1.1, by intro r hr; cases hr⟩
          | valsR vs => cases h; exact ⟨H1.1, by intro r hr; cases hr⟩
      | notE op rhs =>
        rcases h1 : execRun f envi (.exprT rhs) st with ⟨o1, st1⟩
        have H1 := ih envi (.exprT rhs) st o1 st1 hinv trivial h1
        simp only [execRun, h1] at h
        cases o1 with
        | error e2 => cases h; exact ⟨H1.1, by intro r hr; cases hr⟩
        | ok r1 =>
          cases r1 with
          | valR v =>
            cases ht : truthy v with
            | error e2 => simp only [ht] at h; cases h
                          exact ⟨H1.1, by intro r hr; cases hr⟩
            | ok bv =>
              simp only [ht] at h; cases h
              exact ⟨H1.1, by intro r hr; cases hr; trivial⟩
          | retR ro => cases h; exact ⟨H1.1, by intro r hr; cases hr⟩
          | valsR vs => cases h; exact ⟨H1.1, by intro r hr; cases hr⟩
      | compE op lhs rhs =>
        rcases h1 : execRun f envi (.exprT lhs) st with ⟨o1, st1⟩
        have H1 := ih envi (.exprT lhs) st o1 st1 hinv trivial h1
        simp only [execRun, h1] at h
        cases o1 with
        | error e2 => cases h; exact ⟨H1.1, by intro r hr; cases hr⟩
        | ok r1 =>
          cases r1 with
          | valR lv =>
            by_cases hv1 : hasVal lv = true
            · simp only [hv1, if_true] at h
              rcases h2 : execRun f envi (.exprT rhs) st1 with ⟨o2, st3⟩
              have H2 := ih envi (.exprT rhs) st1 o2 st3 H1.1 trivial h2
              simp only [h2] at h
              cases o2 with
              | error e2 => cases h; exact ⟨H2.1, by intro r hr; cases hr⟩
              | ok r2 =>
                cases r2 with
                | valR rv =>
                  by_cases hv2 : hasVal rv = true
                  · simp only [hv2, if_true] at h
                    cases hca : compApply f st3 op.type lv rv with
                    | error e2 => simp only [hca] at h; cases h
                                  exact ⟨H2.1, by intro r hr; cases hr⟩
                    | ok v =>
                      simp only [hca] at h; cases h
                      exact ⟨H2.1,
                        by intro r hr; cases hr; exact compApply_good hca⟩
                  · have hv2f : hasVal rv = false := by simpa using hv2
                    simp only [hv2f, Bool.false_eq_true, if_false] at h
                    cases h
                    exact ⟨H2.1, by intro r hr; cases hr⟩
                | retR ro => cases h; exact ⟨H2.1, by intro r hr; cases hr⟩
                | valsR vs => cases h; exact ⟨H2.1, by intro r hr; cases hr⟩
            · have hv1f : hasVal lv = false := by simpa using hv1
              simp only [hv1f, Bool.false_eq_true, if_false] at h
              cases h
              exact ⟨H1.1, by intro r hr; cases hr⟩
          | retR ro => cases h; exact ⟨H1.1, by intro r hr; cases hr⟩
          | valsR vs => cases h; exact ⟨H1.1, by intro r hr; cases hr⟩
      | addE op lhs rhs =>
        rcases h1 : execRun f envi (.exprT lhs) st with ⟨o1, st1⟩
        have H1 := ih envi (.exprT lhs) st o1 st1 hinv trivial h1
        simp only [execRun, h1] at h
        cases o1 with
        | error e2 => cases h; exact ⟨H1.1, by intro r hr; cases hr⟩
        | ok r1 =>
          cases r1 with
          | valR lv =>
            by_cases hv1 : hasVal lv = true
            · simp only [hv1, if_true] at h
              rcases h2 : execRun f envi (.exprT rhs) st1 with ⟨o2, st3⟩
              have H2 := ih envi (.exprT rhs) st1 o2 st3 H1.1 trivial h2
              simp only [h2] at h
              cases o2 with
              | error e2 => cases h; exact ⟨H2.1, by intro r hr; cases hr⟩
              | ok r2 =>
                cases r2 with
                | valR rv =>
                  by_cases hv2 : hasVal rv = true
                  · simp only [hv2, if_true] at h
                    cases hca : arithApply op.type lv rv with
                    | error e2 => simp only [hca] at h; cases h
                                  exact ⟨H2.1, by intro r hr; cases hr⟩
                    | ok v =>
                      simp only [hca] at h; cases h
                      exact ⟨H2.1,
                        by intro r hr; cases hr; exact arithApply_good hca⟩
                  · have hv2f : hasVal rv = false := by simpa using hv2
                    simp only [hv2f, Bool.false_eq_true, if_false] at h
                    cases h
                    exact ⟨H2.1, by intro r hr; cases hr⟩
                | retR ro => cases h; exact ⟨H2.1, by intro r hr; cases hr⟩
                | valsR vs => cases h; exact ⟨H2.1, by intro r hr; cases hr⟩
            · have hv1f : hasVal lv = false := by simpa using hv1
              simp only [hv1f, Bool.false_eq_true, if_false] at h
              cases h
              exact ⟨H1.1, by intro r hr; cases hr⟩
          | retR ro => cases h; exact ⟨H1.1, by intro r hr; cases hr⟩
          | valsR vs => cases h; exact ⟨H1.1, by intro r hr; cases hr⟩
      | mulE op lhs rhs =>
        rcases h1 : execRun f envi (.exprT lhs) st with ⟨o1, st1⟩
        have H1 := ih envi (.exprT lhs) st o1 st1 hinv trivial h1
        simp only [execRun, h1] at h
        cases o1 with
        | error e2 => cases h; exact ⟨H1.1, by intro r hr; cases hr⟩
        | ok r1 =>
          cases r1 with
          | valR lv =>
            by_cases hv1 : hasVal lv = true
            · simp only [hv1, if_true] at h
              rcases h2 : execRun f envi (.exprT rhs) st1 with ⟨o2, st3⟩
              have H2 := ih envi (.exprT rhs) st1 o2 st3 H1.1 trivial h2
              simp only [h2] at h
              cases o2 with
              | error e2 => cases h; exact ⟨H2.1, by intro r hr; cases hr⟩
              | ok r2 =>
                cases r2 with
                | valR rv =>
                  by_cases hv2 : hasVal rv = true
                  · simp only [hv2, if_true] at h
                    cases hca : arithApply op.type lv rv with
                    | error e2 => simp only [hca] at h; cases h
                                  exact ⟨H2.1, by intro r hr; cases hr⟩
                    | ok v =>
                      simp only [hca] at h; cases h
                      exact ⟨H2.1,
                        by intro r hr; cases hr; exact arithApply_good hca⟩
                  · have hv2f : hasVal rv = false := by simpa using hv2
                    simp only [hv2f, Bool.false_eq_true, if_false] at h
                    cases h
                    exact ⟨H2.1, by intro r hr; cases hr⟩
                | retR ro => cases h; exact ⟨H2.1, by intro r hr; cases hr⟩
                | valsR vs => cases h; exact ⟨H2.1, by intro r hr; cases hr⟩
            · have hv1f : hasVal lv = false := by simpa using hv1
              simp only [hv1f, Bool.false_eq_true, if_false] at h
              cases h
              exact ⟨H1.1, by intro r hr; cases hr⟩
          | retR ro => cases h; exact ⟨H1.1, by intro r hr; cases hr⟩
          | valsR vs => cases h; exact ⟨H1.1, by intro r hr; cases hr⟩
      | signE op rhs =>
        rcases h1 : execRun f envi (.exprT rhs) st with ⟨o1, st1⟩
        have H1 := ih envi (.exprT rhs) st o1 st1 hinv trivial h1
        simp only [execRun, h1] at h
        cases o1 with
        | error e2 => cases h; exact ⟨H1.1, by intro r hr; cases hr⟩
        | ok r1 =>
          cases r1 with
          | valR v =>
            by_cases hv1 : hasVal v = true
            · simp only [hv1, if_true] at h
              cases hsa : signApply op.type v with
              | error e2 => simp only [hsa] at h; cases h
                            exact ⟨H1.1, by intro r hr; cases hr⟩
              | ok w =>
                simp only [hsa] at h; cases h
                exact ⟨H1.1, by intro r hr; cases hr; exact signApply_good hsa⟩
            · have hv1f : hasVal v = false := by simpa using hv1
              simp only [hv1f, Bool.false_eq_true, if_false] at h
              cases h
              exact ⟨H1.1, by intro r hr; cases hr⟩
          | retR ro => cases h; exact ⟨H1.1, by intro r hr; cases hr⟩
          | valsR vs => cases h; exact ⟨H1.1, by intro r hr; cases hr⟩
      | call id args =>
        simp only [execRun] at h
        cases he : envGet st envi id.value with
        | error e2 => simp only [he] at h; cases h
                      exact ⟨hinv, by intro r hr; cases hr⟩
        | ok fval =>
          simp only [he] at h
          rcases h1 : execRun f envi (.argsT args) st with ⟨o1, st1⟩
          have H1 := ih envi (.argsT args) st o1 st1 hinv trivial h1
          simp only [h1] at h
          cases o1 with
          | error e2 => cases h; exact ⟨H1.1, by intro r hr; cases hr⟩
          | ok r1 =>
            cases r1 with
            | valsR vs =>
              exact ih envi (.callT fval vs) st1 o st2 H1.1
                ⟨envGet_good hinv he, H1.2 _ rfl⟩ h
            | valR v => cases h; exact ⟨H1.1, by intro r hr; cases hr⟩
            | retR ro => cases h; exact ⟨H1.1, by intro r hr; cases hr⟩

/-- A parser state whose current, lookahead and pending tokens are all
dot-free. -/
def GoodPS (ps : PState) : Prop :=
  goodTok ps.tok ∧ goodTok ps.la ∧ ∀ t ∈ ps.rest, goodTok t

/-- Result-shaped goodness conclusions for the parser. -/
def GoodPRes : PRes → Prop
  | .stmnt s => GoodStmnt s
  | .stmnts l => GoodBlock l
  | .exprR _ => True
  | .exprs _ => True
  | .toks l => ∀ x ∈ l, goodTok x
  | .callR _ _ => True

theorem next_token_good {ps : PState} (h : GoodPS ps) :
    GoodPS (next_token ps) := by
  obtain ⟨h1, h2, h3⟩ := h
  refine ⟨h2, ?_, ?_⟩
  · unfold next_token
    cases hr : ps.rest with
    | nil => simp [List.headD, eofToken, goodTok, goodNameStr]
    | cons t r =>
      simp only [List.headD]
      exact h3 t (by simp [hr])
  · intro t ht
    unfold next_token at ht
    exact h3 t (List.mem_of_mem_tail ht)

theorem parseRun_good :
    ∀ (f : Nat) (t : PTask) (ps : PState) (res : PRes) (ps' : PState),
      GoodPS ps → parseRun f t ps = .ok (res, ps') →
      GoodPRes res ∧ GoodPS ps' := by
  intro f
  induction f with
  | zero => intro t ps res ps' _ h; simp only [parseRun] at h; cases h
  | succ f ih =>
    intro t ps res ps' hg h
    cases t with
    | topLevel =>
      simp only [parseRun] at h
      split_ifs at h
      exact ih .statement ps res ps' hg h
    | statement =>
      simp only [parseRun] at h
      split_ifs at h
      · exact ih .ifStmnt ps res ps' hg h
      · exact ih .whileStmnt ps res ps' hg h
      · exact ih .functionDef ps res ps' hg h
      · exact ih .returnStmnt ps res ps' hg h
      · exact ih .assignmentStmnt ps res ps' hg h
      · cases hc : parseRun f .functionCallT ps with
        | error e => simp only [hc] at h; cases h
        | ok pr =>
          obtain ⟨r2, ps2⟩ := pr
          simp only [hc] at h
          have H := ih .functionCallT ps r2 ps2 hg hc
          cases r2 with
          | callR id args => cases h; exact ⟨GoodStmnt.call, H.2⟩
          | stmnt s => cases h
          | stmnts l => cases h
          | exprR e => cases h
          | exprs l => cases h
          | toks l => cases h
    | functionCallT =>
      simp only [parseRun] at h
      have hg2 := next_token_good (next_token_good hg)
      cases hc : parseRun f .callArgs (next_token (next_token ps)) with
      | error e => simp only [hc] at h; cases h
      | ok pr =>
        obtain ⟨r2, ps2⟩ := pr
        simp only [hc] at h
        have H := ih .callArgs (next_token (next_token ps)) r2 ps2 hg2 hc
        cases r2 with
        | exprs args => cases h; exact ⟨trivial, next_token_good H.2⟩
        | stmnt s => cases h
        | stmnts l => cases h
        | exprR e => cases h
        | toks l => cases h
        | callR id args => cases h
    | callArgs =>
      simp only [parseRun] at h
      split_ifs at h
      · cases h; exact ⟨trivial, hg⟩
      · cases hc : parseRun f .expr ps with
        | error e => simp only [hc] at h; cases h
        | ok pr =>
          obtain ⟨r2, ps2⟩ := pr
          simp only [hc] at h
          have H := ih .expr ps r2 ps2 hg hc
          cases r2 with
          | exprR e =>
            have hg3 : GoodPS (if ps2.tok.type = "comma" then next_token ps2 else ps2) := by
              split_ifs
              · exact next_token_good H.2
              · exact H.2
            cases hc2 : parseRun f .callArgs
                (if ps2.tok.type = "comma" then next_token ps2 else ps2) with
            | error e2 => simp only [hc2] at h; cases h
            | ok pr2 =>
              obtain ⟨r3, ps3⟩ := pr2
              simp only [hc2] at h
              have H2 := ih .callArgs _ r3 ps3 hg3 hc2
              cases r3 with
              | exprs es => cases h; exact ⟨trivial, H2.2⟩
              | stmnt s => cases h
              | stmnts l => cases h
              | exprR e2 => cases h
              | toks l => cases h
              | callR id args => cases h
          | stmnt s => cases h
          | stmnts l => cases h
          | exprs l => cases h
          | toks l => cases h
          | callR id args => cases h
    | functionDef =>
      simp only [parseRun] at h
      have hg1 := next_token_good hg
      have hg3 := next_token_good (next_token_good hg1)
      cases hc : parseRun f .defParams (next_token (next_token (next_token ps))) with
      | error e => simp only [hc] at h; cases h
      | ok pr =>
        obtain ⟨r2, ps2⟩ := pr
        simp only [hc] at h
        have H := ih .defParams _ r2 ps2 hg3 hc
        cases r2 with
        | toks args =>
          cases hc2 : parseRun f (.block ["end-def"]) (next_token ps2) with
          | error e => simp only [hc2] at h; cases h
          | ok pr2 =>
            obtain ⟨r3, ps3⟩ := pr2
            simp only [hc2] at h
            have H2 := ih (.block ["end-def"]) _ r3 ps3 (next_token_good H.2) hc2
            cases r3 with
            | stmnts body =>
              cases h
              exact ⟨GoodStmnt.funcDef hg1.1 H.1 H2.1, next_token_good H2.2⟩
            | stmnt s => cases h
            | exprR e => cases h
            | exprs l => cases h
            | toks l => cases h
            | callR id args => cases h
        | stmnt s => cases h
        | stmnts l => cases h
        | exprR e => cases h
        | exprs l => cases h
        | callR id args => cases h
    | defParams =>
      simp only [parseRun] at h
      by_cases hcp : ps.tok.type = "close-paren"
      · rw [if_pos hcp] at h
        cases h
        exact ⟨(by intro x hx; cases hx), hg⟩
      · rw [if_neg hcp] at h
        have hg1 := next_token_good hg
        by_cases hcm : (next_token ps).tok.type = "comma"
        · rw [if_pos hcm] at h
          cases hc : parseRun f .defParams (next_token (next_token ps)) with
          | error e => simp only [hc] at h; cases h
          | ok pr =>
            obtain ⟨r2, ps2⟩ := pr
            simp only [hc] at h
            have H := ih .defParams _ r2 ps2 (next_token_good hg1) hc
            cases r2 with
            | toks as =>
              cases h
              refine ⟨?_, H.2⟩
              intro x hx
              rcases List.mem_cons.mp hx with rfl | hin
              · exact hg.1
              · exact H.1 x hin
            | stmnt s => cases h
            | stmnts l => cases h
            | exprR e => cases h
            | exprs l => cases h
            | callR id args => cases h
        · rw [if_neg hcm] at h
          cases hc : parseRun f .defParams (next_token ps) with
          | error e => simp only [hc] at h; cases h
          | ok pr =>
            obtain ⟨r2, ps2⟩ := pr
            simp only [hc] at h
            have H := ih .defParams _ r2 ps2 hg1 hc
            cases r2 with
            | toks as =>
              cases h
              refine ⟨?_, H.2⟩
              intro x hx
              rcases List.mem_cons.mp hx with rfl | hin
              · exact hg.1
              · exact H.1 x hin
            | stmnt s => cases h
            | stmnts l => cases h
            | exprR e => cases h
            | exprs l => cases h
            | callR id args => cases h
    | returnStmnt =>
      simp only [parseRun] at h
      cases hc : parseRun f .expr (next_token ps) with
      | error e => simp only [hc] at h; cases h
      | ok pr =>
        obtain ⟨r2, ps2⟩ := pr
        simp only [hc] at h
        have H := ih .expr _ r2 ps2 (next_token_good hg) hc
        cases r2 with
        | exprR e => cases h; exact ⟨GoodStmnt.ret, H.2⟩
        | stmnt s => cases h
        | stmnts l => cases h
        | exprs l => cases h
        | toks l => cases h
        | callR id args => cases h
    | ifStmnt =>
      simp only [parseRun] at h
      cases hc : parseRun f .expr (next_token ps) with
      | error e => simp only [hc] at h; cases h
      | ok pr =>
        obtain ⟨r2, ps2⟩ := pr
        have H := ih .expr _ r2 ps2 (next_token_good hg) hc
        cases r2 with
        | exprR cond =>
          simp only [hc] at h
          cases hc2 : parseRun f (.block ["else", "end-if"]) (next_token ps2) with
          | error e => simp only [hc2] at h; cases h
          | ok pr2 =>
            obtain ⟨r3, ps3⟩ := pr2
            have H2 := ih (.block ["else", "end-if"]) _ r3 ps3
              (next_token_good H.2) hc2
            cases r3 with
            | stmnts thn =>
              simp only [hc2] at h
              split_ifs at h
              · cases hc3 : parseRun f (.block ["end-if"]) (next_token ps3) with
                | error e => simp only [hc3] at h; cases h
                | ok pr3 =>
                  obtain ⟨r4, ps5⟩ := pr3
                  have H3 := ih (.block ["end-if"]) _ r4 ps5
                    (next_token_good H2.2) hc3
                  cases r4 with
                  | stmnts els =>
                    simp only [hc3] at h
                    cases h
                    exact ⟨GoodStmnt.ifS H2.1 H3.1, next_token_good H3.2⟩
                  | stmnt s => simp only [hc3] at h; cases h
                  | exprR e => simp only [hc3] at h; cases h
                  | exprs l => simp only [hc3] at h; cases h
                  | toks l => simp only [hc3] at h; cases h
                  | callR id args => simp only [hc3] at h; cases h
              · cases h
                exact ⟨GoodStmnt.ifS H2.1 GoodBlock.nil, next_token_good H2.2⟩
            | stmnt s => simp only [hc2] at h; cases h
            | exprR e => simp only [hc2] at h; cases h
            | exprs l => simp only [hc2] at h; cases h
            | toks l => simp only [hc2] at h; cases h
            | callR id args => simp only [hc2] at h; cases h
        | stmnt s => simp only [hc] at h; cases h
        | stmnts l => simp only [hc] at h; cases h
        | exprs l => simp only [hc] at h; cases h
        | toks l => simp only [hc] at h; cases h
        | callR id args => simp only [hc] at h; cases h
    | whileStmnt =>
      simp only [parseRun] at h
      cases hc : parseRun f .expr (next_token ps) with
      | error e => simp only [hc] at h; cases h
      | ok pr =>
        obtain ⟨r2, ps2⟩ := pr
        simp only [hc] at h
        have H := ih .expr _ r2 ps2 (next_token_good hg) hc
        cases r2 with
        | exprR cond =>
          cases hc2 : parseRun f (.block ["end-while"]) (next_token ps2) with
          | error e => simp only [hc2] at h; cases h
          | ok pr2 =>
            obtain ⟨r3, ps3⟩ := pr2
            simp only [hc2] at h
            have H2 := ih (.block ["end-while"]) _ r3 ps3
              (next_token_good H.2) hc2
            cases r3 with
            | stmnts body =>
              cases h
              exact ⟨GoodStmnt.whileS H2.1, next_token_good H2.2⟩
            | stmnt s => cases h
            | exprR e => cases h
            | exprs l => cases h
            | toks l => cases h
            | callR id args => cases h
        | stmnt s => cases h
        | stmnts l => cases h
        | exprs l => cases h
        | toks l => cases h
        | callR id args => cases h
    | assignmentStmnt =>
      simp only [parseRun] at h
      cases hc : parseRun f .expr (next_token (next_token ps)) with
      | error e => simp only [hc] at h; cases h
      | ok pr =>
        obtain ⟨r2, ps2⟩ := pr
        simp only [hc] at h
        have H := ih .expr _ r2 ps2 (next_token_good (next_token_good hg)) hc
        cases r2 with
        | exprR e => cases h; exact ⟨GoodStmnt.assign hg.1, H.2⟩
        | stmnt s => cases h
        | stmnts l => cases h
        | exprs l => cases h
        | toks l => cases h
        | callR id args => cases h
    | block stop =>
      simp only [parseRun] at h
      split_ifs at h
      · cases h; exact ⟨GoodBlock.nil, hg⟩
      · cases hc : parseRun f .statement ps with
        | error e => simp only [hc] at h; cases h
        | ok pr =>
          obtain ⟨r2, ps2⟩ := pr
          simp only [hc] at h
          have H := ih .statement ps r2 ps2 hg hc
          cases r2 with
          | stmnt s =>
            cases hc2 : parseRun f (.block stop) ps2 with
            | error e => simp only [hc2] at h; cases h
            | ok pr2 =>
              obtain ⟨r3, ps3⟩ := pr2
              simp only [hc2] at h
              have H2 := ih (.block stop) ps2 r3 ps3 H.2 hc2
              cases r3 with
              | stmnts l => cases h; exact ⟨GoodBlock.cons H.1 H2.1, H2.2⟩
              | stmnt s2 => cases h
              | exprR e => cases h
              | exprs l => cases h
              | toks l => cases h
              | callR id args => cases h
          | stmnts l => cases h
          | exprR e => cases h
          | exprs l => cases h
          | toks l => cases h
          | callR id args => cases h
    | expr =>
      simp only [parseRun] at h
      exact ih .orExpr ps res ps' hg h
    | orExpr =>
      simp only [parseRun] at h
      cases hc : parseRun f .andExpr ps with
      | error e => simp only [hc] at h; cases h
      | ok pr =>
        obtain ⟨r2, ps2⟩ := pr
        have H := ih .andExpr ps r2 ps2 hg hc
        cases r2 with
        | exprR lhs =>
          simp only [hc] at h
          exact ih (.orTree lhs) ps2 res ps' H.2 h
        | stmnt s => simp only [hc] at h; cases h
        | stmnts l => simp only [hc] at h; cases h
        | exprs l => simp only [hc] at h; cases h
        | toks l => simp only [hc] at h; cases h
        | callR id args => simp only [hc] at h; cases h
    | orTree lhs =>
      simp only [parseRun] at h
      split_ifs at h
      · cases hc : parseRun f .andExpr (next_token ps) with
        | error e => simp only [hc] at h; cases h
        | ok pr =>
          obtain ⟨r2, ps2⟩ := pr
          have H := ih .andExpr _ r2 ps2 (next_token_good hg) hc
          cases r2 with
          | exprR rhs =>
            simp only [hc] at h
            exact ih (.orTree _) ps2 res ps' H.2 h
          | stmnt s => simp only [hc] at h; cases h
          | stmnts l => simp only [hc] at h; cases h
          | exprs l => simp only [hc] at h; cases h
          | toks l => simp only [hc] at h; cases h
          | callR id args => simp only [hc] at h; cases h
      · cases h; exact ⟨trivial, hg⟩
    | andExpr =>
      simp only [parseRun] at h
      cases hc : parseRun f .notExpr ps with
      | error e => simp only [hc] at h; cases h
      | ok pr =>
        obtain ⟨r2, ps2⟩ := pr
        have H := ih .notExpr ps r2 ps2 hg hc
        cases r2 with
        | exprR lhs =>
          simp only [hc] at h
          exact ih (.andTree lhs) ps2 res ps' H.2 h
        | stmnt s => simp only [hc] at h; cases h
        | stmnts l => simp only [hc] at h; cases h
        | exprs l => simp only [hc] at h; cases h
        | toks l => simp only [hc] at h; cases h
        | callR id args => simp only [hc] at h; cases h
    | andTree lhs =>
      simp only [parseRun] at h
      split_ifs at h
      · cases hc : parseRun f .notExpr (next_token ps) with
        | error e => simp only [hc] at h; cases h
        | ok pr =>
          obtain ⟨r2, ps2⟩ := pr
          have H := ih .notExpr _ r2 ps2 (next_token_good hg) hc
          cases r2 with
          | exprR rhs =>
            simp only [hc] at h
            exact ih (.andTree _) ps2 res ps' H.2 h
          | stmnt s => simp only [hc] at h; cases h
          | stmnts l => simp only [hc] at h; cases h
          | exprs l => simp only [hc] at h; cases h
          | toks l => simp only [hc] at h; cases h
          | callR id args => simp only [hc] at h; cases h
      · cases h; exact ⟨trivial, hg⟩
    | notExpr =>
      simp only [parseRun] at h
      split_ifs at h
      · cases hc : parseRun f .notExpr (next_token ps) with
        | error e => simp only [hc] at h; cases h
        | ok pr =>
          obtain ⟨r2, ps2⟩ := pr
          have H := ih .notExpr _ r2 ps2 (next_token_good hg) hc
          cases r2 with
          | exprR rhs =>
            simp only [hc] at h
            cases h
            exact ⟨trivial, H.2⟩
          | stmnt s => simp only [hc] at h; cases h
          | stmnts l => simp only [hc] at h; cases h
          | exprs l => simp only [hc] at h; cases h
          | toks l => simp only [hc] at h; cases h
          | callR id args => simp only [hc] at h; cases h
      · exact ih .compExpr ps res ps' hg h
    | compExpr =>
      simp only [parseRun] at h
      cases hc : parseRun f .addExpr ps with
      | error e => simp only [hc] at h; cases h
      | ok pr =>
        obtain ⟨r2, ps2⟩ := pr
        have H := ih .addExpr ps r2 ps2 hg hc
        cases r2 with
        | exprR lhs =>
          simp only [hc] at h
          exact ih (.compTree lhs) ps2 res ps' H.2 h
        | stmnt s => simp only [hc] at h; cases h
        | stmnts l => simp only [hc] at h; cases h
        | exprs l => simp only [hc] at h; cases h
        | toks l => simp only [hc] at h; cases h
        | callR id args => simp only [hc] at h; cases h
    | compTree lhs =>
      simp only [parseRun] at h
      split_ifs at h
      · cases hc : parseRun f .addExpr (next_token ps) with
        | error e => simp only [hc] at h; cases h
        | ok pr =>
          obtain ⟨r2, ps2⟩ := pr
          have H := ih .addExpr _ r2 ps2 (next_token_good hg) hc
          cases r2 with
          | exprR rhs =>
            simp only [hc] at h
            exact ih (.compTree _) ps2 res ps' H.2 h
          | stmnt s => simp only [hc] at h; cases h
          | stmnts l => simp only [hc] at h; cases h
          | exprs l => simp only [hc] at h; cases h
          | toks l => simp only [hc] at h; cases h
          | callR id args => simp only [hc] at h; cases h
      · cases h; exact ⟨trivial, hg⟩
    | addExpr =>
      simp only [parseRun] at h
      cases hc : parseRun f .mulExpr ps with
      | error e => simp only [hc] at h; cases h
      | ok pr =>
        obtain ⟨r2, ps2⟩ := pr
        have H := ih .mulExpr ps r2 ps2 hg hc
        cases r2 with
        | exprR lhs =>
          simp only [hc] at h
          exact ih (.addTree lhs) ps2 res ps' H.2 h
        | stmnt s => simp only [hc] at h; cases h
        | stmnts l => simp only [hc] at h; cases h
        | exprs l => simp only [hc] at h; cases h
        | toks l => simp only [hc] at h; cases h
        | callR id args => simp only [hc] at h; cases h
    | addTree lhs =>
      simp only [parseRun] at h
      split_ifs at h
      · cases hc : parseRun f .mulExpr (next_token ps) with
        | error e => simp only [hc] at h; cases h
        | ok pr =>
          obtain ⟨r2, ps2⟩ := pr
          have H := ih .mulExpr _ r2 ps2 (next_token_good hg) hc
          cases r2 with
          | exprR rhs =>
            simp only [hc] at h
            exact ih (.addTree _) ps2 res ps' H.2 h
          | stmnt s => simp only [hc] at h; cases h
          | stmnts l => simp only [hc] at h; cases h
          | exprs l => simp only [hc] at h; cases h
          | toks l => simp only [hc] at h; cases h
          | callR id args => simp only [hc] at h; cases h
      · cases h; exact ⟨trivial, hg⟩
    | mulExpr =>
      simp only [parseRun] at h
      cases hc : parseRun f .signExpr ps with
      | error e => simp only [hc] at h; cases h
      | ok pr =>
        obtain ⟨r2, ps2⟩ := pr
        have H := ih .signExpr ps r2 ps2 hg hc
        cases r2 with
        | exprR lhs =>
          simp only [hc] at h
          exact ih (.mulTree lhs) ps2 res ps' H.2 h
        | stmnt s => simp only [hc] at h; cases h
        | stmnts l => simp only [hc] at h; cases h
        | exprs l => simp only [hc] at h; cases h
        | toks l => simp only [hc] at h; cases h
        | callR id args => simp only [hc] at h; cases h
    | mulTree lhs =>
      simp only [parseRun] at h
      split_ifs at h
      · cases hc : parseRun f .signExpr (next_token ps) with
        | error e => simp only [hc] at h; cases h
        | ok pr =>
          obtain ⟨r2, ps2⟩ := pr
          have H := ih .signExpr _ r2 ps2 (next_token_good hg) hc
          cases r2 with
          | exprR rhs =>
            simp only [hc] at h
            exact ih (.mulTree _) ps2 res ps' H.2 h
          | stmnt s => simp only [hc] at h; cases h
          | stmnts l => simp only [hc] at h; cases h
          | exprs l => simp only [hc] at h; cases h
          | toks l => simp only [hc] at h; cases h
          | callR id args => simp only [hc] at h; cases h
      · cases h; exact ⟨trivial, hg⟩
    | signExpr =>
      simp only [parseRun] at h
      split_ifs at h
      · cases hc : parseRun f .signExpr (next_token ps) with
        | error e => simp only [hc] at h; cases h
        | ok pr =>
          obtain ⟨r2, ps2⟩ := pr
          have H := ih .signExpr _ r2 ps2 (next_token_good hg) hc
          cases r2 with
          | exprR rhs =>
            simp only [hc] at h
            cases h
            exact ⟨trivial, H.2⟩
          | stmnt s => simp only [hc] at h; cases h
          | stmnts l => simp only [hc] at h; cases h
          | exprs l => simp only [hc] at h; cases h
          | toks l => simp only [hc] at h; cases h
          | callR id args => simp only [hc] at h; cases h
      · exact ih .atom ps res ps' hg h
    | atom =>
      simp only [parseRun] at h
      split_ifs at h
      · exact ih .constantExpr ps res ps' hg h
      · cases hc : parseRun f .functionCallT ps with
        | error e => simp only [hc] at h; cases h
        | ok pr =>
          obtain ⟨r2, ps2⟩ := pr
          have H := ih .functionCallT ps r2 ps2 hg hc
          cases r2 with
          | callR id args =>
            simp only [hc] at h
            cases h
            exact ⟨trivial, H.2⟩
          | stmnt s => simp only [hc] at h; cases h
          | stmnts l => simp only [hc] at h; cases h
          | exprR e => simp only [hc] at h; cases h
          | exprs l => simp only [hc] at h; cases h
          | toks l => simp only [hc] at h; cases h
      · exact ih .variableExpr ps res ps' hg h
      · exact ih .sequenceExpr ps res ps' hg h
      · exact ih .enclosure ps res ps' hg h
    | constantExpr =>
      simp only [parseRun] at h
      cases h
      exact ⟨trivial, next_token_good hg⟩
    | variableExpr =>
      simp only [parseRun] at h
      cases h
      exact ⟨trivial, next_token_good hg⟩
    | sequenceExpr =>
      simp only [parseRun] at h
      cases hc : parseRun f .seqElems (next_token ps) with
      | error e => simp only [hc] at h; cases h
      | ok pr =>
        obtain ⟨r2, ps2⟩ := pr
        have H := ih .seqElems _ r2 ps2 (next_token_good hg) hc
        cases r2 with
        | exprs es =>
          simp only [hc] at h
          cases h
          exact ⟨trivial, next_token_good H.2⟩
        | stmnt s => simp only [hc] at h; cases h
        | stmnts l => simp only [hc] at h; cases h
        | exprR e => simp only [hc] at h; cases h
        | toks l => simp only [hc] at h; cases h
        | callR id args => simp only [hc] at h; cases h
    | seqElems =>
      simp only [parseRun] at h
      split_ifs at h
      · cases h; exact ⟨trivial, hg⟩
      · cases hc : parseRun f .expr ps with
        | error e => simp only [hc] at h; cases h
        | ok pr =>
          obtain ⟨r2, ps2⟩ := pr
          simp only [hc] at h
          have H := ih .expr ps r2 ps2 hg hc
          cases r2 with
          | exprR e =>
            have hg3 : GoodPS (if ps2.tok.type = "comma" then next_token ps2 else ps2) := by
              split_ifs
              · exact next_token_good H.2
              · exact H.2
            cases hc2 : parseRun f .seqElems
                (if ps2.tok.type = "comma" then next_token ps2 else ps2) with
            | error e2 => simp only [hc2] at h; cases h
            | ok pr2 =>
              obtain ⟨r3, ps3⟩ := pr2
              simp only [hc2] at h
              have H2 := ih .seqElems _ r3 ps3 hg3 hc2
              cases r3 with
              | exprs es => cases h; exact ⟨trivial, H2.2⟩
              | stmnt s => cases h
              | stmnts l => cases h
              | exprR e2 => cases h
              | toks l => cases h
              | callR id args => cases h
          | stmnt s => cases h
          | stmnts l => cases h
          | exprs l => cases h
          | toks l => cases h
          | callR id args => cases h
    | enclosure =>
      simp only [parseRun] at h
      cases hc : parseRun f .expr (next_token ps) with
      | error e => simp only [hc] at h; cases h
      | ok pr =>
        obtain ⟨r2, ps2⟩ := pr
        have H := ih .expr _ r2 ps2 (next_token_good hg) hc
        cases r2 with
        | exprR e =>
          simp only [hc] at h
          cases h
          exact ⟨trivial, next_token_good H.2⟩
        | stmnt s => simp only [hc] at h; cases h
        | stmnts l => simp only [hc] at h; cases h
        | exprs l => simp only [hc] at h; cases h
        | toks l => simp only [hc] at h; cases h
        | callR id args => simp only [hc] at h; cases h

theorem make_token_good :
    ∀ (buf : List Char) (t : Token), make_token buf = .ok t → goodNameStr t.value := by
  intro buf t h
  simp only [make_token] at h
  by_cases hk : keywords.contains (String.mk buf) = true
  · rw [if_pos hk] at h
    cases h
    show goodNameStr (String.mk buf)
    have hk2 := List.mem_of_elem_eq_true hk
    simp only [keywords, List.mem_cons, List.not_mem_nil, or_false] at hk2
    rcases hk2 with h1|h1|h1|h1|h1|h1|h1|h1|h1|h1|h1|h1|h1 <;> (rw [h1]; decide)
  · rw [if_neg hk] at h
    cases hs : symbolLookup (String.mk buf) with
    | some ty =>
      rw [hs] at h
      cases h
      show goodNameStr (String.mk buf)
      unfold symbolLookup at hs
      cases hf : symbols.find? (fun p => p.1 = String.mk buf) with
      | none => rw [hf] at hs; cases hs
      | some p =>
        have hmem := List.mem_of_find?_eq_some hf
        have hpred := List.find?_some hf
        simp only [decide_eq_true_eq] at hpred
        rw [← hpred]
        simp only [symbols, List.mem_cons, List.not_mem_nil, or_false] at hmem
        rcases hmem with rfl|rfl|rfl|rfl|rfl|rfl|rfl|rfl|rfl|rfl|rfl|rfl|rfl|rfl|rfl|rfl|rfl <;>
          decide
    | none =>
      rw [hs] at h
      split_ifs at h with hb hi hd hstr
      · cases h
        show goodNameStr (String.mk buf)
        simp only [booleanTest, Bool.or_eq_true, decide_eq_true_eq] at hb
        rcases hb with h1 | h1 <;> (rw [h1]; decide)
      · cases h
        cases buf with
        | nil => simp [pyIsIdentifier] at hi
        | cons c cs =>
          show (c :: cs).head? ≠ some '.'
          intro hcon
          have hc : c = '.' := by simpa using hcon
          subst hc
          simp only [pyIsIdentifier, Bool.and_eq_true, Bool.or_eq_true,
            decide_eq_true_eq] at hi
          rcases hi with ⟨h1, _⟩
          revert h1
          decide
      · cases h
        cases buf with
        | nil => simp [pyIsDigits] at hd
        | cons c cs =>
          show (c :: cs).head? ≠ some '.'
          intro hcon
          have hc : c = '.' := by simpa using hcon
          subst hc
          simp only [pyIsDigits, List.all_cons, Bool.and_eq_true] at hd
          rcases hd with ⟨_, h1, _⟩
          revert h1
          decide
      · cases h
        cases buf with
        | nil => simp [stringTest] at hstr
        | cons c cs =>
          show (c :: cs).head? ≠ some '.'
          intro hcon
          have hc : c = '.' := by simpa using hcon
          subst hc
          simp [stringTest] at hstr

theorem tokenizeAux_good :
    ∀ (cs buf : List Char) (ins : Bool) (ts : List Token),
      tokenizeAux cs buf ins = .ok ts → ∀ t ∈ ts, goodNameStr t.value := by
  intro cs
  induction cs with
  | nil =>
    intro buf ins ts h t ht
    simp only [tokenizeAux] at h
    split_ifs at h with he
    · cases h; cases ht
    · cases hm : make_token buf with
      | error e => rw [hm] at h; cases h
      | ok tk =>
        rw [hm] at h
        cases h
        rcases List.mem_singleton.mp ht with rfl
        exact make_token_good _ _ hm
  | cons c cs ih =>
    intro buf ins ts h t ht
    simp only [tokenizeAux] at h
    split_ifs at h with h1 h2 h3 h4 h5 h6 h7
    · exact ih _ _ _ h t ht
    · split at h
      · cases h
      · rename_i tk hm
        split at h
        · cases h
        · rename_i rest hr
          cases h
          rcases List.mem_cons.mp ht with rfl | hin
          · exact make_token_good _ _ hm
          · exact ih _ _ _ hr t hin
    · split at h
      · cases h
      · rename_i tk hm
        split at h
        · cases h
        · rename_i rest hr
          cases h
          rcases List.mem_cons.mp ht with rfl | hin
          · exact make_token_good _ _ hm
          · exact ih _ _ _ hr t hin
    · split at h
      · cases h
      · rename_i tk hm
        split at h
        · cases h
        · rename_i rest hr
          cases h
          rcases List.mem_cons.mp ht with rfl | hin
          · exact make_token_good _ _ hm
          · exact ih _ _ _ hr t hin
    · split at h
      · cases h
      · rename_i tk hm
        split at h
        · cases h
        · rename_i rest hr
          cases h
          rcases List.mem_cons.mp ht with rfl | hin
          · exact make_token_good _ _ hm
          · exact ih _ _ _ hr t hin
    · split at h
      · cases h
      · rename_i tk hm
        split at h
        · cases h
        · rename_i rest hr
          cases h
          rcases List.mem_cons.mp ht with rfl | hin
          · exact make_token_good _ _ hm
          · exact ih _ _ _ hr t hin
    · exact ih _ _ _ h t ht
    · exact ih _ _ _ h t ht

theorem inv_build_global_environment : InvSt build_global_environment := by
  refine ⟨rfl, ?_, ?_, ?_⟩
  · intro fr hfr
    simp [build_global_environment] at hfr
  · intro fr hfr kv hkv
    simp only [build_global_environment, List.mem_singleton] at hfr
    subst hfr
    simp only [List.mem_cons, List.not_mem_nil, or_false] at hkv
    rcases hkv with rfl|rfl|rfl|rfl|rfl|rfl|rfl|rfl|rfl|rfl <;>
      first
        | exact trivial
        | exact ⟨by decide, trivial⟩
  · intro l hl
    simp [build_global_environment] at hl

theorem interpretLoop_preserves :
    ∀ (d pf ef : Nat) (ps : PState) (st : EvalSt)
      (o : Except Err (Option Value)) (st2 : EvalSt),
      GoodPS ps → InvSt st → interpretLoop d pf ef ps st = (o, st2) →
      InvSt st2 := by
  intro d
  induction d with
  | zero =>
    intro pf ef ps st o st2 _ hinv h
    cases h
    exact hinv
  | succ d ih =>
    intro pf ef ps st o st2 hps hinv h
    simp only [interpretLoop] at h
    split_ifs at h with he
    · cases h; exact hinv
    · cases hc : parseRun pf .topLevel ps with
      | error e => simp only [hc] at h; cases h; exact hinv
      | ok pr =>
        obtain ⟨r2, ps2⟩ := pr
        simp only [hc] at h
        cases r2 with
        | stmnt s =>
          have HP := parseRun_good pf .topLevel ps (.stmnt s) ps2 hps hc
          rcases hx : execRun ef 0 (.stmnt s) st with ⟨o1, st1⟩
          have HE := execRun_preserves ef 0 (.stmnt s) st o1 st1 hinv HP.1 hx
          simp only [hx] at h
          cases o1 with
          | error e => cases h; exact HE.1
          | ok r1 =>
            cases r1 with
            | retR ov =>
              cases ov with
              | some v => cases h; exact HE.1
              | none => exact ih pf ef ps2 st1 o st2 HP.2 HE.1 h
            | valR v => cases h; exact HE.1
            | valsR vs => cases h; exact HE.1
        | stmnts l => cases h; exact hinv
        | exprR e => cases h; exact hinv
        | exprs l => cases h; exact hinv
        | toks l => cases h; exact hinv
        | callR a b => cases h; exact hinv

theorem interpret_preserves :
    ∀ (pf ef df : Nat) (ts : List Token)
      (o : Except Err (Option Value)) (st2 : EvalSt),
      (∀ t ∈ ts, goodNameStr t.value) →
      interpret pf ef df ts build_global_environment = (o, st2) →
      InvSt st2 := by
  intro pf ef df ts o st2 hts h
  unfold interpret at h
  cases hp : parseInit ts with
  | error e =>
    rw [hp] at h
    cases h
    exact inv_build_global_environment
  | ok ps =>
    rw [hp] at h
    have hgps : GoodPS ps := by
      unfold parseInit at hp
      cases ts with
      | nil => cases hp
      | cons t0 rest0 =>
        cases rest0 with
        | nil => cases hp
        | cons t1 rest =>
          cases hp
          exact ⟨hts t0 (by simp), hts t1 (by simp),
            fun t ht => hts t (by simp [ht])⟩
    exact interpretLoop_preserves df pf ef ps build_global_environment o st2
      hgps inv_build_global_environment h

/-- C9: the reserved sink binding is never disturbed.  The lexer can emit
no token whose text starts with a dot (stated for make_token and for the
whole of tokenize), the initial global environment satisfies the sink
invariant, every evaluator step on a dot-free statement preserves it, the
interleaved parse-and-execute driver preserves it, and therefore running
any tokenizable program from the initial environment — to completion or
to an error — leaves the global frame's `.out` binding as the original
output sink; the invariant also forces it in every intermediate state the
driver threads. -/
theorem c9_out_sink_invariant :
    (∀ (buf : List Char) (t : Token), make_token buf = .ok t →
      goodNameStr t.value)
    ∧ (∀ (src : String) (ts : List Token), tokenize src = .ok ts →
        ∀ t ∈ ts, goodNameStr t.value)
    ∧ InvSt build_global_environment
    ∧ (∀ (f envi : Nat) (t : ETask) (st : EvalSt) (o : Except Err ERes)
        (st2 : EvalSt),
        InvSt st → GoodTask t → execRun f envi t st = (o, st2) → InvSt st2)
    ∧ (∀ (d pf ef : Nat) (ps : PState) (st : EvalSt)
        (o : Except Err (Option Value)) (st2 : EvalSt),
        GoodPS ps → InvSt st → interpretLoop d pf ef ps st = (o, st2) →
        InvSt st2)
    ∧ (∀ st : EvalSt, InvSt st → outBinding st = some .sink)
    ∧ (∀ (pf ef df : Nat) (src : String) (ts : List Token)
        (o : Except Err (Option Value)) (st2 : EvalSt),
        tokenize src = .ok ts →
        interpret pf ef df ts build_global_environment = (o, st2) →
        outBinding st2 = some .sink) := by
  refine ⟨make_token_good, ?_, inv_build_global_environment, ?_, ?_, ?_, ?_⟩
  · intro src ts h t ht
    exact tokenizeAux_good src.data [] false ts h t ht
  · intro f envi t st o st2 hinv hg h
    exact (execRun_preserves f envi t st o st2 hinv hg h).1
  · exact interpretLoop_preserves
  · exact fun st h => h.1
  · intro pf ef df src ts o st2 htok hrun
    exact (interpret_preserves pf ef df ts o st2
      (fun t ht => tokenizeAux_good src.data [] false ts htok t ht) hrun).1

/-- C9 witness: the lexer fact at the concrete buffer `count`, and the
full-pipeline fact on the concrete program `x = 1`, whose final state
still binds `.out` to the sink. -/
theorem c9_out_sink_invariant_witness :
    make_token ['c', 'o', 'u', 'n', 't'] = .ok ⟨"identifier", "count"⟩
    ∧ goodNameStr (Token.mk "identifier" "count").value
    ∧ tokenize "x = 1" =
        .ok [⟨"identifier", "x"⟩, ⟨"assignment", "="⟩, ⟨"integer", "1"⟩]
    ∧ outBinding
        (interpret 32 64 8
          [⟨"identifier", "x"⟩, ⟨"assignment", "="⟩, ⟨"integer", "1"⟩]
          build_global_environment).2 = some .sink :=
  ⟨rfl,
   c9_out_sink_invariant.1 ['c', 'o', 'u', 'n', 't'] ⟨"identifier", "count"⟩ rfl,
   rfl,
   c9_out_sink_invariant.2.2.2.2.2.2 32 64 8 "x = 1"
     [⟨"identifier", "x"⟩, ⟨"assignment", "="⟩, ⟨"integer", "1"⟩]
     (interpret 32 64 8
       [⟨"identifier", "x"⟩, ⟨"assignment", "="⟩, ⟨"integer", "1"⟩]
       build_global_environment).1
     (interpret 32 64 8
       [⟨"identifier", "x"⟩, ⟨"assignment", "="⟩, ⟨"integer", "1"⟩]
       build_global_environment).2
     rfl rfl⟩
